import Mathlib

/-!
Shallow embedding of the kff-v2 queue-reconstruction core
(src/kff_v2/episodes.py, reconcile.py, fifo.py, interface.py).

Conventions used throughout:
* pandas/numpy floats are modelled as `ℚ`; every numeric constant appearing
  in the source (`1e-9`, `1e-6`, thresholds, weights) is exactly
  representable.
* UTC timestamps are modelled as integers (seconds since the epoch); the
  pandas floor-to-minute is `Int.ediv · 60` (floor division).
* A DataFrame is modelled as a list of column names plus a list of typed
  rows carrying exactly the columns the core reads.
* The convex-QP backend (cvxpy + OSQP) is explicitly out of scope in the
  spec and is modelled as an oracle returning a status string together with
  the variable value arrays; the backend contract guarantees the arrays
  have the window length, which the embedding normalises with `List.getD`.
* `df.sort_values("minute_start_utc")` is modelled by a stable merge sort
  on the timestamp key.
-/

namespace KffV2

/-- A row of a minute-flow table: `minute_start_utc`, `in_count`,
`out_count` (episodes.py and reconcile.py read exactly these columns). -/
structure MinuteRow where
  minute_start_utc : ℤ
  in_count : ℚ
  out_count : ℚ
deriving Repr, DecidableEq

/-- A minute-flow DataFrame: its column names and its rows. -/
structure MinuteDf where
  cols : List String
  rows : List MinuteRow
deriving Repr, DecidableEq

/-- `sorted(required_cols - set(df.columns))` for the minute-flow
functions; the set difference of
`{"minute_start_utc", "in_count", "out_count"}` is reported sorted. -/
def missingMinuteCols (df : MinuteDf) : List String :=
  (["in_count", "minute_start_utc", "out_count"]).filter
    (fun c => decide (c ∉ df.cols))

/-- Errors surfaced by the pipeline (`ValueError` for missing columns,
`RuntimeError` for a failed QP solve). -/
inductive PipeError where
  | missingColumns : List String → PipeError
  | solverError : String → PipeError
deriving Repr, DecidableEq

/-- `df.sort_values("minute_start_utc").reset_index(drop=True)` (a stable
sort on the timestamp key). -/
def sortByMinute (rows : List MinuteRow) : List MinuteRow :=
  rows.insertionSort (fun r1 r2 => r1.minute_start_utc ≤ r2.minute_start_utc)

/-- `EpisodeDetectConfig` from episodes.py (defaults as in the source). -/
structure EpisodeDetectConfig where
  active_threshold : ℚ := 1
  min_active_minutes : ℤ := 5
  max_gap_minutes : ℤ := 10
  min_episode_minutes : ℤ := 20
  buffer_minutes : ℤ := 10
deriving Repr, DecidableEq

/-- One output row of `detect_queue_episodes`. -/
structure EpisodeRow where
  episode_id : ℕ
  start_idx : ℤ
  end_idx : ℤ
  start_ts_utc : ℤ
  end_ts_utc : ℤ
  duration_minutes : ℤ
deriving Repr, DecidableEq

/-- `active = (in_count + out_count) >= cfg.active_threshold` pointwise. -/
def activeList (work : List MinuteRow) (thr : ℚ) : List Bool :=
  work.map (fun r => decide (thr ≤ r.in_count + r.out_count))

/-- `np.flatnonzero` with an index offset: the indices (ascending,
counted from `i`) at which the boolean list holds. -/
def flatnonzeroFrom (i : ℕ) : List Bool → List ℕ
  | [] => []
  | b :: rest =>
    if b then i :: flatnonzeroFrom (i + 1) rest else flatnonzeroFrom (i + 1) rest

/-- `np.flatnonzero`: the indices (ascending) at which the boolean list
holds. -/
def flatnonzero (l : List Bool) : List ℕ := flatnonzeroFrom 0 l

/-- The run-grouping loop of episodes.py: given the (ascending) index list,
accumulate `(start, prev)` while indices stay consecutive, emitting a run
whenever a gap appears.  `groupRunsAux s p xs` is the loop state after
having seen a run currently spanning `[s, p]`. -/
def groupRunsAux (s p : ℕ) : List ℕ → List (ℕ × ℕ)
  | [] => [(s, p)]
  | idx :: rest =>
    if idx = p + 1 then groupRunsAux s idx rest
    else (s, p) :: groupRunsAux idx idx rest

/-- Group an ascending index list into inclusive runs, as the loops in
`detect_queue_episodes` do. -/
def groupRuns : List ℕ → List (ℕ × ℕ)
  | [] => []
  | idx :: rest => groupRunsAux idx idx rest

/-- `active[s : e + 1] = True` (numpy slice assignment, clipped to the
array bounds), with `i` the absolute index of the list head. -/
def setRangeTrueFrom (s e : ℕ) : ℕ → List Bool → List Bool
  | _, [] => []
  | i, b :: rest =>
    (if s ≤ i ∧ i ≤ e then true else b) :: setRangeTrueFrom s e (i + 1) rest

/-- `active[s : e + 1] = True` (numpy slice assignment, clipped to the
array bounds). -/
def setRangeTrue (l : List Bool) (s e : ℕ) : List Bool :=
  setRangeTrueFrom s e 0 l

/-- One iteration of the gap-bridging loop: if the inactive run `se` is
short enough and both its neighbours are active in the current (mutating)
array, flip it. -/
def bridgeBody (maxGap : ℤ) (acc : List Bool) (se : ℕ × ℕ) : List Bool :=
  if ((se.2 : ℤ) - se.1 + 1) ≤ maxGap then
    let leftActive := decide (0 < se.1) && acc.getD (se.1 - 1) false
    let rightActive :=
      decide (se.2 < acc.length - 1) && acc.getD (se.2 + 1) false
    if leftActive && rightActive then setRangeTrue acc se.1 se.2
    else acc
  else acc

/-- The gap-bridging pass of `detect_queue_episodes`: enumerate maximal
inactive runs and sequentially flip those of length at most
`max_gap_minutes` whose immediate neighbours are active (checked against
the mutating array, exactly as in the source). -/
def bridgeGaps (maxGap : ℤ) (active : List Bool) : List Bool :=
  if 0 < maxGap ∧ 0 < active.length then
    let inactiveIdx := flatnonzero (active.map (fun b => !b))
    if inactiveIdx.isEmpty then active
    else (groupRuns inactiveIdx).foldl (bridgeBody maxGap) active
  else active

/-- The bridging condition of one inactive run, evaluated against the
original activity vector: short enough, strictly interior, and both
neighbours active. -/
def bridgeCond (maxGap : ℤ) (l : List Bool) (se : ℕ × ℕ) : Bool :=
  decide (((se.2 : ℤ) - se.1 + 1) ≤ maxGap) &&
    (decide (0 < se.1) && l.getD (se.1 - 1) false) &&
    (decide (se.2 < l.length - 1) && l.getD (se.2 + 1) false)

/-- The emission loop of `detect_queue_episodes`: reject raw runs shorter
than `min_active_minutes`, pad by `buffer_minutes` clamped to the grid,
reject padded episodes shorter than `min_episode_minutes`, and number the
survivors with a running 1-based counter (`eid` is the counter value
before the current run). -/
def emitEpisodes (cfg : EpisodeDetectConfig) (work : List MinuteRow) :
    List (ℕ × ℕ) → ℕ → List EpisodeRow
  | [], _ => []
  | (startIdx, endIdx) :: rest, eid =>
    let duration : ℤ := (endIdx : ℤ) - (startIdx : ℤ) + 1
    if duration < cfg.min_active_minutes then emitEpisodes cfg work rest eid
    else
      let startBuf : ℤ := max 0 ((startIdx : ℤ) - cfg.buffer_minutes)
      let endBuf : ℤ := min ((work.length : ℤ) - 1) ((endIdx : ℤ) + cfg.buffer_minutes)
      let fullDuration : ℤ := endBuf - startBuf + 1
      if fullDuration < cfg.min_episode_minutes then emitEpisodes cfg work rest eid
      else
        ⟨eid + 1, startBuf, endBuf,
          (work.getD startBuf.toNat ⟨0, 0, 0⟩).minute_start_utc,
          (work.getD endBuf.toNat ⟨0, 0, 0⟩).minute_start_utc,
          fullDuration⟩ :: emitEpisodes cfg work rest (eid + 1)

/-- `detect_queue_episodes` (episodes.py): column check, sort, activity
thresholding, gap bridging, active-run enumeration, filtering and
buffering. -/
def detect_queue_episodes (df : MinuteDf) (cfg : EpisodeDetectConfig) :
    Except PipeError (List EpisodeRow) :=
  let missing := missingMinuteCols df
  if missing.isEmpty then
    let work := sortByMinute df.rows
    let active := activeList work cfg.active_threshold
    let bridged := bridgeGaps cfg.max_gap_minutes active
    let activeIdx := flatnonzero bridged
    if activeIdx.isEmpty then Except.ok []
    else Except.ok (emitEpisodes cfg work (groupRuns activeIdx) 0)
  else Except.error (PipeError.missingColumns missing)

/-- `ReconcileConfig` from reconcile.py (defaults as in the source). -/
structure ReconcileConfig where
  q0 : ℚ := 0
  w_in : ℚ := 1
  w_out : ℚ := 4
  adaptive_inflow_prior : Bool := false
  activity_source : String := "max_io"
  activity_window : ℤ := 7
  activity_eps : ℚ := 1/2
  inflow_weight_min_scale : ℚ := 1/4
  inflow_weight_max_scale : ℚ := 4
  smooth_in : ℚ := 0
  smooth_out : ℚ := 0
  nonnegative_flows : Bool := true
  solver : String := "OSQP"
  eps_abs : ℚ := 1/100000
  eps_rel : ℚ := 1/100000
  max_iter : ℕ := 50000
deriving Repr, DecidableEq

/-- The terminal state of `problem.solve()` as observed by reconcile.py: a
cvxpy status string and the value arrays of the variables `i`, `o`, `q`. -/
structure SolverResult where
  status : String
  i : List ℚ
  o : List ℚ
  q : List ℚ
deriving Repr, DecidableEq

/-- The QP backend as a black-box oracle (spec §4.3): it receives the
configuration and the measured series and returns a `SolverResult`. -/
def QpSolver : Type := ReconcileConfig → List ℚ → List ℚ → SolverResult

/-- One output row of `reconcile_minute_flows`. -/
structure RecRow where
  minute_start_utc : ℤ
  in_count_measured : ℚ
  out_count_measured : ℚ
  in_count_corrected : ℚ
  out_count_corrected : ℚ
  occupancy_corrected_end : ℚ
deriving Repr, DecidableEq

/-- `reconcile_minute_flows` (reconcile.py): column check, sort, empty
short-circuit, black-box QP solve, status check, and the post-solve
clamps `np.maximum(·, 0.0)` — applied to `i` and `o` only when
`cfg.nonnegative_flows` holds, and to `q` unconditionally. -/
def reconcile_minute_flows (solver : QpSolver) (df : MinuteDf)
    (cfg : ReconcileConfig) : Except PipeError (List RecRow) :=
  let missing := missingMinuteCols df
  if missing.isEmpty then
    let work := sortByMinute df.rows
    let n := work.length
    if n = 0 then Except.ok []
    else
      let inMeasured := work.map (fun r => r.in_count)
      let outMeasured := work.map (fun r => r.out_count)
      let res := solver cfg inMeasured outMeasured
      if res.status = "optimal" ∨ res.status = "optimal_inaccurate" then
        let iVal := if cfg.nonnegative_flows then res.i.map (fun x => max x 0) else res.i
        let oVal := if cfg.nonnegative_flows then res.o.map (fun x => max x 0) else res.o
        let qVal := res.q.map (fun x => max x 0)
        Except.ok ((List.range n).map (fun k =>
          ⟨(work.getD k ⟨0, 0, 0⟩).minute_start_utc,
            (work.getD k ⟨0, 0, 0⟩).in_count,
            (work.getD k ⟨0, 0, 0⟩).out_count,
            iVal.getD k 0, oVal.getD k 0, qVal.getD k 0⟩))
      else Except.error (PipeError.solverError res.status)
  else Except.error (PipeError.missingColumns missing)

/-- One output row of `reconcile_by_episodes`. -/
structure ReconRow where
  minute_start_utc : ℤ
  in_count_measured : ℚ
  out_count_measured : ℚ
  in_count_corrected : ℚ
  out_count_corrected : ℚ
  occupancy_corrected_end : ℚ
  episode_id : Option ℤ
  in_episode : Bool
deriving Repr, DecidableEq

/-- `work.loc[s:e, ["minute_start_utc", "in_count", "out_count"]]` with the
index reset: the rows whose positional label lies in `[s, e]`. -/
def sliceRows (work : List MinuteRow) (s e : ℤ) : List MinuteRow :=
  (work.enum.filter (fun p => decide (s ≤ (p.1 : ℤ) ∧ (p.1 : ℤ) ≤ e))).map (fun p => p.2)

/-- The write-back of one episode's reconciled window:
`out.loc[s:e, c] = rec[c]` for the three corrected columns, plus the
scalar broadcasts of `episode_id` and `in_episode = True`. -/
def writeEpisode (out : List ReconRow) (ep : EpisodeRow) (rec : List RecRow) :
    List ReconRow :=
  out.enum.map (fun p =>
    if ep.start_idx ≤ (p.1 : ℤ) ∧ (p.1 : ℤ) ≤ ep.end_idx then
      let j := ((p.1 : ℤ) - ep.start_idx).toNat
      { p.2 with
        in_count_corrected := (rec.getD j ⟨0, 0, 0, 0, 0, 0⟩).in_count_corrected
        out_count_corrected := (rec.getD j ⟨0, 0, 0, 0, 0, 0⟩).out_count_corrected
        occupancy_corrected_end := (rec.getD j ⟨0, 0, 0, 0, 0, 0⟩).occupancy_corrected_end
        episode_id := some (ep.episode_id : ℤ)
        in_episode := true }
    else p.2)

/-- The per-episode loop of `reconcile_by_episodes`: slice each episode's
window out of `work`, reconcile it (propagating failures), and write the
result back in episode order. -/
def applyEpisodes (solver : QpSolver) (rcfg : ReconcileConfig)
    (work : List MinuteRow) :
    List EpisodeRow → List ReconRow → Except PipeError (List ReconRow)
  | [], out => Except.ok out
  | ep :: rest, out =>
    match reconcile_minute_flows solver
        ⟨["minute_start_utc", "in_count", "out_count"],
          sliceRows work ep.start_idx ep.end_idx⟩ rcfg with
    | Except.error e => Except.error e
    | Except.ok rec => applyEpisodes solver rcfg work rest (writeEpisode out ep rec)

/-- `reconcile_by_episodes` (episodes.py): sort, column check, identity
seed table (`q = 0`, measured copied to corrected, no episode), episode
detection, and the sequential per-episode reconcile-and-write loop.  No
coalescing of overlapping episode windows is performed. -/
def reconcile_by_episodes (solver : QpSolver) (df : MinuteDf)
    (rcfg : ReconcileConfig) (ecfg : EpisodeDetectConfig) :
    Except PipeError (List ReconRow) :=
  let work := sortByMinute df.rows
  let missing := missingMinuteCols df
  if missing.isEmpty then
    let out := work.map (fun r =>
      (⟨r.minute_start_utc, r.in_count, r.out_count, r.in_count, r.out_count,
        0, none, false⟩ : ReconRow))
    match detect_queue_episodes ⟨df.cols, work⟩ ecfg with
    | Except.error e => Except.error e
    | Except.ok eps =>
      if eps.isEmpty then Except.ok out
      else applyEpisodes solver rcfg work eps out
  else Except.error (PipeError.missingColumns missing)

/-- `np.cumsum`. -/
def cumsum (l : List ℚ) : List ℚ := (l.scanl (· + ·) 0).tail

/-- The cursor-advancing `while` loop of `_fifo_wait_single_segment`:
advance `t_in` while `t_in < n - 1` and `cum_in[t_in] < target - match_tol`. -/
def advanceCursor (cumIn : List ℚ) (target tol : ℚ) (tIn : ℕ) : ℕ :=
  if h : tIn < cumIn.length - 1 ∧ cumIn.getD tIn 0 < target - tol then
    advanceCursor cumIn target tol (tIn + 1)
  else tIn
termination_by cumIn.length - tIn
decreasing_by
  exact Nat.sub_succ_lt_self _ _ (Nat.lt_of_lt_of_le h.1 (Nat.sub_le _ _))

/-- The main loop of `_fifo_wait_single_segment` from minute `k` on, with
current cursor `tIn`; emits one `Option ℚ` wait per minute. -/
def fifoAux (n : ℕ) (cumIn cumOut outFlow : List ℚ) (eps tol : ℚ)
    (tIn k : ℕ) : List (Option ℚ) :=
  if k < n then
    if outFlow.getD k 0 ≤ eps then
      none :: fifoAux n cumIn cumOut outFlow eps tol tIn (k + 1)
    else
      let target := cumOut.getD k 0
      let u := advanceCursor cumIn target tol tIn
      (if target ≤ cumIn.getD u 0 + tol then some ((k : ℚ) - (u : ℚ)) else none)
        :: fifoAux n cumIn cumOut outFlow eps tol u (k + 1)
  else []
termination_by n - k

/-- `_fifo_wait_single_segment` (fifo.py): FIFO waits for one contiguous
segment by cumulative-count matching with tolerances `outflow_eps` and
`match_tol`.  `none` models `np.nan`. -/
def fifo_wait_single_segment (inFlow outFlow : List ℚ) (eps tol : ℚ) :
    List (Option ℚ) :=
  let n := inFlow.length
  if n = 0 then []
  else fifoAux n (cumsum inFlow) (cumsum outFlow) outFlow eps tol 0 0

/-- A row of the corrected-flow table consumed by `add_fifo_wait_columns`
(default column names): corrected flows plus the optional episode
annotations (`episode_id = none` models `NaN`). -/
structure FifoRow where
  in_count_corrected : ℚ
  out_count_corrected : ℚ
  episode_id : Option ℤ
  in_episode : Bool
deriving Repr, DecidableEq

/-- The table passed to `add_fifo_wait_columns`: column names plus rows. -/
structure FifoDf where
  cols : List String
  rows : List FifoRow
deriving Repr, DecidableEq

/-- `seg_mask` for one episode id: `in_episode & (episode_id == eid)`. -/
def fifoMatch (eid : ℤ) (r : FifoRow) : Bool :=
  r.in_episode && decide (r.episode_id = some eid)

/-- `pandas.Series.unique`: deduplicate preserving first-appearance
order. -/
def uniqueKeepOrder : List ℤ → List ℤ
  | [] => []
  | x :: xs => x :: uniqueKeepOrder (xs.filter (fun y => decide (y ≠ x)))
termination_by l => l.length
decreasing_by
  exact Nat.lt_succ_of_le (List.length_filter_le _ _)

/-- `out.loc[mask, "episode_id"].dropna().unique()`. -/
def episodeIdsOf (rows : List FifoRow) : List ℤ :=
  uniqueKeepOrder ((rows.filter (fun r => r.in_episode)).filterMap
    (fun r => r.episode_id))

/-- The per-episode wait computation: compact the episode's rows and run
the single-segment reconstructor on them. -/
def segWaits (rows : List FifoRow) (eid : ℤ) (eps tol : ℚ) : List (Option ℚ) :=
  let seg := rows.filter (fifoMatch eid)
  fifo_wait_single_segment (seg.map (fun r => r.in_count_corrected))
    (seg.map (fun r => r.out_count_corrected)) eps tol

/-- `out.loc[seg_mask, wait_col] = w`: positionally assign the computed
segment waits to the masked rows, leaving other rows' waits unchanged. -/
def scatterWaits (eid : ℤ) :
    List FifoRow → List (Option ℚ) → List (Option ℚ) → List (Option ℚ)
  | [], acc, _ => acc
  | _ :: _, [], _ => []
  | r :: rs, a :: accs, ws =>
    if fifoMatch eid r then ws.headD none :: scatterWaits eid rs accs ws.tail
    else a :: scatterWaits eid rs accs ws

/-- The full-window branch of `add_fifo_wait_columns`. -/
def fullWindowWaits (rows : List FifoRow) (eps tol : ℚ) : List (Option ℚ) :=
  fifo_wait_single_segment (rows.map (fun r => r.in_count_corrected))
    (rows.map (fun r => r.out_count_corrected)) eps tol

/-- `add_fifo_wait_columns` (fifo.py) with the default column names: the
result is the copied input table together with its new wait column.  When
both episode columns are present and at least one row is flagged, the
reconstructor runs independently per episode id (first-appearance order);
otherwise it runs on the full window. -/
def add_fifo_wait_columns (df : FifoDf) (eps tol : ℚ) :
    Except PipeError (List FifoRow × List (Option ℚ)) :=
  let missing := (["in_count_corrected", "out_count_corrected"]).filter
    (fun c => decide (c ∉ df.cols))
  if missing.isEmpty then
    let out := df.rows
    let waits0 : List (Option ℚ) := out.map (fun _ => none)
    if "episode_id" ∈ df.cols ∧ "in_episode" ∈ df.cols then
      let ids := episodeIdsOf out
      if ids.isEmpty then Except.ok (out, fullWindowWaits out eps tol)
      else
        Except.ok (out, ids.foldl
          (fun acc eid => scatterWaits eid out acc (segWaits out eid eps tol))
          waits0)
    else Except.ok (out, fullWindowWaits out eps tol)
  else Except.error (PipeError.missingColumns missing)

/-- `EstimateQueueOptions` from interface.py.  This is the complete field
list of the source dataclass; in particular it has no `include_fifo_wait`
field. -/
structure EstimateQueueOptions where
  in_timestamp_col : String := "timestamp"
  out_timestamp_col : String := "timestamp"
  freq : String := "1min"
  use_episode_splitting : Bool := true
  reconcile : ReconcileConfig :=
    { q0 := 0, w_in := 1, w_out := 1, smooth_in := 1/20, smooth_out := 1/20 }
  episodes : EpisodeDetectConfig := {}

/-- A timestamp DataFrame handed to the public entrypoint: column names
plus, per column, the per-row parse results of
`pd.to_datetime(..., errors="coerce")` — `none` models `NaT`, and a
parsed timestamp is an integer count of seconds. -/
structure TsDf where
  cols : List String
  col : String → List (Option ℤ)

/-- pandas `floor("1min")` on a timestamp in seconds: floor division by
60, yielding the bucket's minute number. -/
def floorMinute (t : ℤ) : ℤ := Int.ediv t 60

/-- `pd.date_range(start, end, freq="1min")` on minute numbers: the
inclusive integer range. -/
def intRange (a b : ℤ) : List ℤ :=
  (List.range (b - a + 1).toNat).map (fun (j : ℕ) => a + (j : ℤ))

/-- The minimum of a list of integers, as `pandas.Series.min` computes it
(the fold is over the whole list; the seed is the head). -/
def listMin (l : List ℤ) : ℤ := l.foldl min (l.headD 0)

/-- The maximum of a list of integers (`pandas.Series.max`). -/
def listMax (l : List ℤ) : ℤ := l.foldl max (l.headD 0)

/-- `_build_minute_flows` (interface.py): parse-and-drop both timestamp
columns, short-circuit to an empty grid when both are empty, and bucket
the timestamps onto the dense minute grid spanning the floored minimum to
the floored maximum.  `value_counts().reindex(grid, fill_value=0)` is the
per-bucket count. -/
def build_minute_flows (in_df out_df : TsDf) (opts : EstimateQueueOptions) :
    Except PipeError MinuteDf :=
  if opts.in_timestamp_col ∉ in_df.cols then
    Except.error (PipeError.missingColumns [opts.in_timestamp_col])
  else if opts.out_timestamp_col ∉ out_df.cols then
    Except.error (PipeError.missingColumns [opts.out_timestamp_col])
  else
    let inTs := (in_df.col opts.in_timestamp_col).filterMap id
    let outTs := (out_df.col opts.out_timestamp_col).filterMap id
    if inTs.isEmpty ∧ outTs.isEmpty then
      Except.ok ⟨["minute_start_utc", "in_count", "out_count"], []⟩
    else
      let allMin := (inTs ++ outTs).map floorMinute
      let mStart := listMin allMin
      let mEnd := listMax allMin
      Except.ok ⟨["minute_start_utc", "in_count", "out_count"],
        (intRange mStart mEnd).map (fun m =>
          ⟨60 * m,
            (((inTs.map floorMinute).count m : ℕ) : ℚ),
            (((outTs.map floorMinute).count m : ℕ) : ℚ)⟩)⟩

/-- The user-facing table produced by `_format_queue_output`: index name,
column names in construction order, and the column data. -/
structure QueueTable where
  indexName : String
  cols : List String
  tid : List ℤ
  paxIKo : List ℚ
  paxInIKo : List ℚ
  paxUrKo : List ℚ
deriving Repr, DecidableEq

/-- `_format_queue_output` (interface.py): project the reconciled table to
the user-facing schema.  The constructed columns are exactly
`Pax i kö`, `Pax in i kö`, `Pax ur kö` — no wait column. -/
def format_queue_output (reconciled : List ReconRow) : QueueTable :=
  ⟨"Tid", ["Pax i kö", "Pax in i kö", "Pax ur kö"],
    reconciled.map (fun r => r.minute_start_utc),
    reconciled.map (fun r => r.occupancy_corrected_end),
    reconciled.map (fun r => r.in_count_corrected),
    reconciled.map (fun r => r.out_count_corrected)⟩

/-- Promote a `reconcile_minute_flows` row to the orchestrator's row type
(`reconciled["episode_id"] = pd.NA`, `reconciled["in_episode"] = False`). -/
def recToRecon (r : RecRow) : ReconRow :=
  ⟨r.minute_start_utc, r.in_count_measured, r.out_count_measured,
    r.in_count_corrected, r.out_count_corrected, r.occupancy_corrected_end,
    none, false⟩

/-- `estimate_queue_from_timestamps` (interface.py), non-debug return:
build the minute grid, reconcile (per episode or whole-grid), and format.
The empty-grid branch returns the empty table with the same three
columns. -/
def estimate_queue_from_timestamps (solver : QpSolver) (in_df out_df : TsDf)
    (opts : EstimateQueueOptions) : Except PipeError QueueTable :=
  match build_minute_flows in_df out_df opts with
  | Except.error e => Except.error e
  | Except.ok measured =>
    if measured.rows.isEmpty then
      Except.ok ⟨"Tid", ["Pax i kö", "Pax in i kö", "Pax ur kö"], [], [], [], []⟩
    else
      let reconciled :=
        if opts.use_episode_splitting then
          reconcile_by_episodes solver measured opts.reconcile opts.episodes
        else
          (reconcile_minute_flows solver measured opts.reconcile).map
            (fun rows => rows.map recToRecon)
      match reconciled with
      | Except.error e => Except.error e
      | Except.ok rows => Except.ok (format_queue_output rows)

/-! ### Specification-side rephrasing of the episode detector (claim C6)

The spec describes the detector as: threshold, flip every strictly
interior maximal inactive run of length at most `max_gap_minutes`
(pointwise, in terms of the run containing each minute), enumerate the
maximal active runs of the bridged vector, then filter/pad/filter/emit.
The definitions below follow those words; the refinement theorem proves
them equal to the source translation above. -/

/-- The start of the maximal `p`-run containing `k`: walk left while the
previous index satisfies `p`. -/
def runStart (p : ℕ → Bool) : ℕ → ℕ
  | 0 => 0
  | k + 1 => if p k then runStart p k else k + 1

/-- The end (exclusive bound `n`) of the maximal `p`-run containing `k`:
walk right while the next index satisfies `p`. -/
def runEnd (p : ℕ → Bool) (n k : ℕ) : ℕ :=
  if h : k + 1 < n ∧ p (k + 1) then runEnd p n (k + 1) else k
termination_by n - k
decreasing_by
  exact Nat.sub_succ_lt_self _ _ (Nat.lt_of_succ_lt h.1)

/-- Pointwise gap bridging per the spec: minute `k` is active after
bridging iff it was active, or its maximal inactive run `[s, e]` has
length at most `max_gap_minutes` and both immediate neighbours exist and
are active (runs touching either end of the grid are never bridged). -/
def bridgedSpec (maxGap : ℤ) (l : List Bool) (k : ℕ) : Bool :=
  l.getD k false ||
    (decide (((runEnd (fun j => !(l.getD j false)) l.length k : ℤ) -
        (runStart (fun j => !(l.getD j false)) k : ℤ) + 1) ≤ maxGap) &&
      decide (0 < runStart (fun j => !(l.getD j false)) k) &&
      l.getD (runStart (fun j => !(l.getD j false)) k - 1) false &&
      decide (runEnd (fun j => !(l.getD j false)) l.length k + 1 < l.length) &&
      l.getD (runEnd (fun j => !(l.getD j false)) l.length k + 1) false)

/-- The number of leading `true`s of a boolean list. -/
def takeTrue : List Bool → ℕ
  | true :: rest => takeTrue rest + 1
  | _ => 0

/-- The maximal `true`-runs of a boolean timeline, scanning left to right;
`i` is the absolute index of the list head. -/
def maximalRuns (i : ℕ) : List Bool → List (ℕ × ℕ)
  | [] => []
  | false :: rest => maximalRuns (i + 1) rest
  | true :: rest =>
    (i, i + takeTrue rest) :: maximalRuns (i + takeTrue rest + 1) (rest.drop (takeTrue rest))
termination_by l => l.length
decreasing_by
  · simp
  · exact Nat.lt_succ_of_le (by rw [List.length_drop]; exact Nat.sub_le _ _)

/-- The episode detector as the spec words it: activity thresholding,
pointwise gap bridging, maximal active runs of the bridged vector, and
the shared filter/pad/filter/emit step. -/
def spec_detect_queue_episodes (df : MinuteDf) (cfg : EpisodeDetectConfig) :
    Except PipeError (List EpisodeRow) :=
  let missing := missingMinuteCols df
  if missing.isEmpty then
    let work := sortByMinute df.rows
    let active := activeList work cfg.active_threshold
    let bridged := (List.range active.length).map
      (fun k => bridgedSpec cfg.max_gap_minutes active k)
    Except.ok (emitEpisodes cfg work (maximalRuns 0 bridged) 0)
  else Except.error (PipeError.missingColumns missing)

/-- `[s, e]` is a maximal `p`-run within `[0, n)`: nonempty, inside the
range, everywhere `p`, and not extendable on either side. -/
def IsMaxRun (p : ℕ → Bool) (n : ℕ) (se : ℕ × ℕ) : Prop :=
  se.1 ≤ se.2 ∧ se.2 < n ∧ (∀ j, se.1 ≤ j → j ≤ se.2 → p j = true) ∧
    (se.1 = 0 ∨ p (se.1 - 1) = false) ∧ (se.2 + 1 = n ∨ p (se.2 + 1) = false)

/-- Episodes are pairwise disjoint index intervals: no index lies in two
episodes' `[start_idx, end_idx]` ranges. -/
def EpisodesDisjoint (eps : List EpisodeRow) : Prop :=
  eps.Pairwise (fun a b => a.end_idx < b.start_idx ∨ b.end_idx < a.start_idx)

/-- The FIFO cursor value just before minute `k` is processed, per the
spec: it starts at 0, stays put on minutes with outflow at most
`ε_out`, and otherwise is left wherever the advance loop for that minute
stopped. -/
def specCursor (cumIn cumOut outFlow : List ℚ) (eps tol : ℚ) : ℕ → ℕ
  | 0 => 0
  | k + 1 =>
    let c := specCursor cumIn cumOut outFlow eps tol k
    if outFlow.getD k 0 ≤ eps then c
    else advanceCursor cumIn (cumOut.getD k 0) tol c

/-- The wait emitted at minute `k` as the spec words it: undefined when
the outflow is at most `ε_out`; otherwise advance the cursor and emit
`k − u` exactly when the cumulative inflow at the cursor matches the
cumulative outflow within `δ`. -/
def specWait (cumIn cumOut outFlow : List ℚ) (eps tol : ℚ) (k : ℕ) :
    Option ℚ :=
  if outFlow.getD k 0 ≤ eps then none
  else
    let u := advanceCursor cumIn (cumOut.getD k 0) tol
      (specCursor cumIn cumOut outFlow eps tol k)
    if cumOut.getD k 0 ≤ cumIn.getD u 0 + tol then some ((k : ℚ) - (u : ℚ))
    else none

/-- The episode-membership mask of episode `e` at row index `j` (false
beyond the table). -/
def episodeMask (rows : List FifoRow) (e : ℤ) (j : ℕ) : Bool :=
  fifoMatch e (rows.getD j ⟨0, 0, none, false⟩)

/-- A QP oracle answering `status` with constant value arrays of the
window length. -/
def constSolver (status : String) (iv ov qv : ℚ) : QpSolver :=
  fun _ a _ => ⟨status, a.map (fun _ => iv), a.map (fun _ => ov),
    a.map (fun _ => qv)⟩

/-- A QP oracle that reports the window length in every corrected-inflow
entry, making visibly distinct windows distinguishable in the output. -/
def lenSolver : QpSolver :=
  fun _ a _ => ⟨"optimal", a.map (fun _ => (a.length : ℚ)),
    a.map (fun _ => 0), a.map (fun _ => 0)⟩

/-- A single-column timestamp DataFrame from a list of parse results. -/
def mkTsDf (l : List (Option ℤ)) : TsDf :=
  ⟨["timestamp"], fun c => if c = "timestamp" then l else []⟩

/-! ### A small pandas object store (claim C10)

Python DataFrames are heap objects; `df.copy()`, `sort_values` and
DataFrame construction allocate fresh objects, while `.loc[...] = ...`
and column assignment write in place to their receiver.  The store below
makes those effects explicit so that non-mutation of inputs is a theorem
rather than a convention: each `_st` function is the statement-by-
statement translation of the source with every allocation and in-place
write routed through the store. -/

/-- A pandas object: one of the table values the four core functions
allocate or write. -/
inductive PdObj where
  | mdf : MinuteDf → PdObj
  | rdf : List RecRow → PdObj
  | odf : List ReconRow → PdObj
  | edf : List EpisodeRow → PdObj
  | fdf : FifoDf → PdObj
  | fdfw : FifoDf → List (Option ℚ) → PdObj
deriving DecidableEq

/-- The object store: a list of cells addressed by allocation order. -/
structure Heap where
  cells : List PdObj
deriving DecidableEq

/-- Dereference a handle. -/
def Heap.read (h : Heap) (r : ℕ) : Option PdObj := h.cells.get? r

/-- Allocate a fresh object, returning the new store and its handle. -/
def Heap.alloc (h : Heap) (v : PdObj) : Heap × ℕ :=
  (⟨h.cells ++ [v]⟩, h.cells.length)

/-- Write an object in place at an existing handle. -/
def Heap.write (h : Heap) (r : ℕ) (v : PdObj) : Heap :=
  ⟨h.cells.set r v⟩

/-- `detect_queue_episodes` with its heap effects: the column check reads
the input, the sort allocates the fresh `work` frame, and everything
afterwards only reads `work`. -/
def detect_queue_episodes_st (h : Heap) (df : ℕ) (cfg : EpisodeDetectConfig) :
    Heap × Except PipeError (List EpisodeRow) :=
  match h.read df with
  | some (PdObj.mdf d) =>
    let missing := missingMinuteCols d
    if missing.isEmpty then
      ((h.alloc (PdObj.mdf ⟨d.cols, sortByMinute d.rows⟩)).1,
        detect_queue_episodes d cfg)
    else (h, Except.error (PipeError.missingColumns missing))
  | _ => (h, Except.error (PipeError.missingColumns []))

/-- `reconcile_minute_flows` with its heap effects: `df.copy()` and the
re-bound `work.sort_values(...)` allocate, the output DataFrame allocates,
and no write ever targets the input. -/
def reconcile_minute_flows_st (solver : QpSolver) (h : Heap) (df : ℕ)
    (cfg : ReconcileConfig) : Heap × Except PipeError (List RecRow) :=
  match h.read df with
  | some (PdObj.mdf d) =>
    let missing := missingMinuteCols d
    if missing.isEmpty then
      let h1 := (h.alloc (PdObj.mdf d)).1
      let h2 := (h1.alloc (PdObj.mdf ⟨d.cols, sortByMinute d.rows⟩)).1
      match reconcile_minute_flows solver d cfg with
      | Except.ok rows => ((h2.alloc (PdObj.rdf rows)).1, Except.ok rows)
      | Except.error e => (h2, Except.error e)
    else (h, Except.error (PipeError.missingColumns missing))
  | _ => (h, Except.error (PipeError.missingColumns []))

/-- The per-episode loop of `reconcile_by_episodes` with its heap effects:
each episode slices a fresh `episode_df`, reconciles it (with the nested
function's own allocations), and then writes the reconciled window into
the `out` frame at handle `outH` in place. -/
def applyEpisodes_st (solver : QpSolver) (rcfg : ReconcileConfig)
    (work : List MinuteRow) :
    List EpisodeRow → Heap → ℕ → List ReconRow →
      Heap × Except PipeError (List ReconRow)
  | [], h, _, out => (h, Except.ok out)
  | ep :: rest, h, outH, out =>
    let a1 := h.alloc (PdObj.mdf ⟨["minute_start_utc", "in_count", "out_count"],
      sliceRows work ep.start_idx ep.end_idx⟩)
    let r := reconcile_minute_flows_st solver a1.1 a1.2 rcfg
    match r.2 with
    | Except.error e => (r.1, Except.error e)
    | Except.ok rec =>
      let out' := writeEpisode out ep rec
      applyEpisodes_st solver rcfg work rest (r.1.write outH (PdObj.odf out'))
        outH out'

/-- `reconcile_by_episodes` with its heap effects: the sorted copy and the
seed `out` frame allocate, episode detection runs on the copy, and all
in-place writes of the episode loop target the `out` frame. -/
def reconcile_by_episodes_st (solver : QpSolver) (h : Heap) (df : ℕ)
    (rcfg : ReconcileConfig) (ecfg : EpisodeDetectConfig) :
    Heap × Except PipeError (List ReconRow) :=
  match h.read df with
  | some (PdObj.mdf d) =>
    let work := sortByMinute d.rows
    let aw := h.alloc (PdObj.mdf ⟨d.cols, work⟩)
    let missing := missingMinuteCols d
    if missing.isEmpty then
      let out0 := work.map (fun r =>
        (⟨r.minute_start_utc, r.in_count, r.out_count, r.in_count, r.out_count,
          0, none, false⟩ : ReconRow))
      let ao := aw.1.alloc (PdObj.odf out0)
      let dres := detect_queue_episodes_st ao.1 aw.2 ecfg
      match dres.2 with
      | Except.error e => (dres.1, Except.error e)
      | Except.ok eps =>
        if eps.isEmpty then (dres.1, Except.ok out0)
        else applyEpisodes_st solver rcfg work eps dres.1 ao.2 out0
    else (aw.1, Except.error (PipeError.missingColumns missing))
  | _ => (h, Except.error (PipeError.missingColumns []))

/-- `add_fifo_wait_columns` with its heap effects: `df.copy()` allocates
the `out` frame, the wait-column initialisation and every per-episode
`out.loc[seg_mask, wait_col] = w` write to that frame in place, and the
input frame is never written. -/
def add_fifo_wait_columns_st (h : Heap) (df : ℕ) (eps tol : ℚ) :
    Heap × Except PipeError (List FifoRow × List (Option ℚ)) :=
  match h.read df with
  | some (PdObj.fdf d) =>
    let missing := (["in_count_corrected", "out_count_corrected"]).filter
      (fun c => decide (c ∉ d.cols))
    if missing.isEmpty then
      let a1 := h.alloc (PdObj.fdf d)
      let waits0 : List (Option ℚ) := d.rows.map (fun _ => none)
      let h2 := a1.1.write a1.2 (PdObj.fdfw d waits0)
      if "episode_id" ∈ d.cols ∧ "in_episode" ∈ d.cols then
        let ids := episodeIdsOf d.rows
        if ids.isEmpty then
          let w := fullWindowWaits d.rows eps tol
          (h2.write a1.2 (PdObj.fdfw d w), Except.ok (d.rows, w))
        else
          let fin := ids.foldl
            (fun st eid =>
              let w' := scatterWaits eid d.rows st.2 (segWaits d.rows eid eps tol)
              (st.1.write a1.2 (PdObj.fdfw d w'), w'))
            (h2, waits0)
          (fin.1, Except.ok (d.rows, fin.2))
      else
        let w := fullWindowWaits d.rows eps tol
        (h2.write a1.2 (PdObj.fdfw d w), Except.ok (d.rows, w))
    else (h, Except.error (PipeError.missingColumns missing))
  | _ => (h, Except.error (PipeError.missingColumns []))

end KffV2

namespace KffV2

/-! ## Lemmas: run enumeration -/

theorem flatnonzeroFrom_ge {l : List Bool} {i x : ℕ}
    (hx : x ∈ flatnonzeroFrom i l) : i ≤ x := by
  induction l generalizing i with
  | nil => simp [flatnonzeroFrom] at hx
  | cons b rest ih =>
    cases b with
    | true =>
      rw [show flatnonzeroFrom i (true :: rest) =
          i :: flatnonzeroFrom (i + 1) rest by simp [flatnonzeroFrom]] at hx
      rcases List.mem_cons.mp hx with h1 | h1
      · omega
      · exact Nat.le_of_succ_le (ih h1)
    | false =>
      simp only [flatnonzeroFrom] at hx
      rw [if_neg (by simp)] at hx
      exact Nat.le_of_succ_le (ih hx)

theorem groupRuns_maximalRuns_aux : ∀ n (l : List Bool), l.length ≤ n →
    (∀ i, groupRuns (flatnonzeroFrom i l) = maximalRuns i l) ∧
      (∀ s p, groupRunsAux s p (flatnonzeroFrom (p + 1) l) =
        (s, p + takeTrue l) ::
          maximalRuns (p + takeTrue l + 1) (l.drop (takeTrue l))) := by
  intro n
  induction n with
  | zero =>
    intro l hl
    have hnil : l = [] := List.length_eq_zero.mp (Nat.le_zero.mp hl)
    subst hnil
    constructor
    · intro i; simp [flatnonzeroFrom, groupRuns, maximalRuns]
    · intro s p; simp [flatnonzeroFrom, groupRunsAux, takeTrue, maximalRuns]
  | succ n ih =>
    intro l hl
    cases l with
    | nil =>
      constructor
      · intro i; simp [flatnonzeroFrom, groupRuns, maximalRuns]
      · intro s p; simp [flatnonzeroFrom, groupRunsAux, takeTrue, maximalRuns]
    | cons b rest =>
      have hr : rest.length ≤ n := by
        simpa using Nat.le_of_succ_le_succ hl
      constructor
      · intro i
        cases b with
        | false =>
          rw [show flatnonzeroFrom i (false :: rest) =
              flatnonzeroFrom (i + 1) rest by simp [flatnonzeroFrom]]
          rw [show maximalRuns i (false :: rest) = maximalRuns (i + 1) rest by
            simp [maximalRuns]]
          exact (ih rest hr).1 (i + 1)
        | true =>
          rw [show flatnonzeroFrom i (true :: rest) =
              i :: flatnonzeroFrom (i + 1) rest by simp [flatnonzeroFrom]]
          rw [show maximalRuns i (true :: rest) =
              (i, i + takeTrue rest) ::
                maximalRuns (i + takeTrue rest + 1) (rest.drop (takeTrue rest)) by
            simp [maximalRuns]]
          exact (ih rest hr).2 i i
      · intro s p
        cases b with
        | true =>
          rw [show flatnonzeroFrom (p + 1) (true :: rest) =
              (p + 1) :: flatnonzeroFrom (p + 2) rest by simp [flatnonzeroFrom]]
          rw [show groupRunsAux s p ((p + 1) :: flatnonzeroFrom (p + 2) rest) =
              groupRunsAux s (p + 1) (flatnonzeroFrom (p + 2) rest) by
            simp [groupRunsAux]]
          have h2 := (ih rest hr).2 s (p + 1)
          rw [h2]
          rw [show takeTrue (true :: rest) = takeTrue rest + 1 from rfl,
            List.drop_succ_cons]
          congr 2 <;> omega
        | false =>
          rw [show flatnonzeroFrom (p + 1) (false :: rest) =
              flatnonzeroFrom (p + 2) rest by simp [flatnonzeroFrom]]
          rw [show takeTrue (false :: rest) = 0 from rfl]
          rw [show maximalRuns (p + 0 + 1) ((false :: rest).drop 0) =
              maximalRuns (p + 2) rest by
            simp [maximalRuns]]
          cases hfz : flatnonzeroFrom (p + 2) rest with
          | nil =>
            have h1 := (ih rest hr).1 (p + 2)
            rw [hfz] at h1
            rw [show groupRuns ([] : List ℕ) = [] from rfl] at h1
            simp [groupRunsAux, ← h1]
          | cons idx tail =>
            have hmem : idx ∈ flatnonzeroFrom (p + 2) rest := by
              rw [hfz]
              exact List.mem_cons_self _ _
            have hge : p + 2 ≤ idx := flatnonzeroFrom_ge hmem
            have h1 := (ih rest hr).1 (p + 2)
            rw [hfz] at h1
            rw [show groupRunsAux s p (idx :: tail) =
                (s, p) :: groupRunsAux idx idx tail by
              simp [groupRunsAux]; omega]
            rw [show groupRunsAux idx idx tail = groupRuns (idx :: tail) from rfl,
              h1]
            simp

theorem groupRuns_flatnonzero (l : List Bool) :
    groupRuns (flatnonzero l) = maximalRuns 0 l :=
  (groupRuns_maximalRuns_aux l.length l le_rfl).1 0

theorem getD_drop (l : List Bool) (t j : ℕ) :
    (l.drop t).getD j false = l.getD (t + j) false := by
  induction l generalizing t j with
  | nil => simp
  | cons b rest ih =>
    cases t with
    | zero => simp
    | succ t =>
      rw [List.drop_succ_cons, ih]
      rw [show t.succ + j = (t + j) + 1 by omega, List.getD_cons_succ]

theorem takeTrue_le (m : List Bool) : takeTrue m ≤ m.length := by
  induction m with
  | nil => simp [takeTrue]
  | cons b rest ih =>
    cases b with
    | true => simp only [takeTrue, List.length_cons]; omega
    | false => simp [takeTrue]

theorem takeTrue_inside {m : List Bool} {j : ℕ} (hj : j < takeTrue m) :
    m.getD j false = true := by
  induction m generalizing j with
  | nil => simp [takeTrue] at hj
  | cons b rest ih =>
    cases b with
    | true =>
      cases j with
      | zero => simp
      | succ j =>
        rw [List.getD_cons_succ]
        exact ih (by simpa [takeTrue] using hj)
    | false => simp [takeTrue] at hj

theorem takeTrue_stop (m : List Bool) : m.getD (takeTrue m) false = false := by
  induction m with
  | nil => simp
  | cons b rest ih =>
    cases b with
    | true => simpa [takeTrue] using ih
    | false => simp [takeTrue]

theorem runStart_le (p : ℕ → Bool) (k : ℕ) : runStart p k ≤ k := by
  induction k with
  | zero => simp [runStart]
  | succ k ih =>
    rw [runStart]
    split
    · omega
    · omega

theorem runStart_inside {p : ℕ → Bool} {k : ℕ} (hk : p k = true) :
    ∀ j, runStart p k ≤ j → j ≤ k → p j = true := by
  induction k with
  | zero =>
    intro j h1 h2
    have : j = 0 := by omega
    simpa [this] using hk
  | succ k ih =>
    intro j h1 h2
    rw [runStart] at h1
    by_cases hpk : p k = true
    · rw [if_pos hpk] at h1
      rcases Nat.lt_or_ge j (k + 1) with hj | hj
      · exact ih hpk j h1 (by omega)
      · have : j = k + 1 := by omega
        simpa [this] using hk
    · rw [if_neg hpk] at h1
      have : j = k + 1 := by omega
      simpa [this] using hk

theorem runStart_boundary (p : ℕ → Bool) (k : ℕ) :
    runStart p k = 0 ∨ p (runStart p k - 1) = false := by
  induction k with
  | zero => left; simp [runStart]
  | succ k ih =>
    rw [runStart]
    by_cases hpk : p k = true
    · rw [if_pos hpk]; exact ih
    · rw [if_neg hpk]
      right
      simpa using Bool.not_eq_true _ ▸ (by simpa using hpk)

theorem runEnd_ge (p : ℕ → Bool) (n k : ℕ) : k ≤ runEnd p n k := by
  by_cases h : k + 1 < n ∧ p (k + 1) = true
  · rw [runEnd, dif_pos h]
    exact Nat.le_of_succ_le (runEnd_ge p n (k + 1))
  · rw [runEnd, dif_neg h]
termination_by n - k
decreasing_by
  exact Nat.sub_succ_lt_self _ _ (Nat.lt_of_succ_lt h.1)

theorem runEnd_lt {p : ℕ → Bool} {n k : ℕ} (hk : k < n) : runEnd p n k < n := by
  by_cases h : k + 1 < n ∧ p (k + 1) = true
  · rw [runEnd, dif_pos h]
    exact runEnd_lt h.1
  · rw [runEnd, dif_neg h]
    exact hk
termination_by n - k
decreasing_by
  exact Nat.sub_succ_lt_self _ _ (Nat.lt_of_succ_lt h.1)

theorem runEnd_inside {p : ℕ → Bool} {n k : ℕ} (hk : p k = true) :
    ∀ j, k ≤ j → j ≤ runEnd p n k → p j = true := by
  intro j h1 h2
  by_cases h : k + 1 < n ∧ p (k + 1) = true
  · rw [runEnd, dif_pos h] at h2
    rcases Nat.lt_or_ge k j with hj | hj
    · exact runEnd_inside h.2 j (by omega) h2
    · have hjk : j = k := by omega
      simpa [hjk] using hk
  · rw [runEnd, dif_neg h] at h2
    have hjk : j = k := by omega
    simpa [hjk] using hk
termination_by n - k
decreasing_by
  exact Nat.sub_succ_lt_self _ _ (Nat.lt_of_succ_lt h.1)

theorem runEnd_boundary (p : ℕ → Bool) {n : ℕ} (k : ℕ) (hk : k < n) :
    runEnd p n k + 1 = n ∨ p (runEnd p n k + 1) = false := by
  by_cases h : k + 1 < n ∧ p (k + 1) = true
  · rw [runEnd, dif_pos h]
    exact runEnd_boundary p (k + 1) h.1
  · rw [runEnd, dif_neg h]
    rcases Nat.lt_or_ge (k + 1) n with hn | hn
    · right
      cases hpk : p (k + 1)
      · rfl
      · exact absurd ⟨hn, hpk⟩ h
    · left; omega
termination_by n - k
decreasing_by
  exact Nat.sub_succ_lt_self _ _ (Nat.lt_of_succ_lt h.1)

theorem maximalRuns_facts : ∀ n (m : List Bool), m.length ≤ n → ∀ i,
    ∀ r ∈ maximalRuns i m,
      i ≤ r.1 ∧ r.1 ≤ r.2 ∧ r.2 < i + m.length ∧
        (∀ j, r.1 ≤ j → j ≤ r.2 → m.getD (j - i) false = true) ∧
        (r.1 = i ∨ m.getD (r.1 - 1 - i) false = false) ∧
        (m.getD (r.2 + 1 - i) false = false ∨ r.2 + 1 = i + m.length) := by
  intro n
  induction n with
  | zero =>
    intro m hm i r hr
    have hnil : m = [] := List.length_eq_zero.mp (Nat.le_zero.mp hm)
    subst hnil
    simp [maximalRuns] at hr
  | succ n ih =>
    intro m hm i r hr
    cases m with
    | nil => simp [maximalRuns] at hr
    | cons b rest =>
      have hrest : rest.length ≤ n := by simpa using Nat.le_of_succ_le_succ hm
      cases b with
      | false =>
        rw [show maximalRuns i (false :: rest) = maximalRuns (i + 1) rest by
          simp [maximalRuns]] at hr
        obtain ⟨h1, h2, h3, h4, h5, h6⟩ := ih rest hrest (i + 1) r hr
        refine ⟨by omega, h2, by simp only [List.length_cons]; omega, ?_, ?_, ?_⟩
        · intro j hj1 hj2
          have hj : 1 ≤ j - i := by omega
          rw [show j - i = (j - (i + 1)) + 1 by omega, List.getD_cons_succ]
          exact h4 j hj1 hj2
        · rcases h5 with h5 | h5
          · right
            rw [show r.1 - 1 - i = 0 by omega]
            simp
          · right
            rcases Nat.eq_or_lt_of_le h1 with he | hlt
            · rw [show r.1 - 1 - i = 0 by omega]; simp
            · rw [show r.1 - 1 - i = (r.1 - 1 - (i + 1)) + 1 by omega,
                List.getD_cons_succ]
              exact h5
        · rcases h6 with h6 | h6
          · left
            rw [show r.2 + 1 - i = (r.2 + 1 - (i + 1)) + 1 by omega,
              List.getD_cons_succ]
            exact h6
          · right; simp only [List.length_cons]; omega
      | true =>
        rw [show maximalRuns i (true :: rest) =
            (i, i + takeTrue rest) ::
              maximalRuns (i + takeTrue rest + 1) (rest.drop (takeTrue rest)) by
          simp [maximalRuns]] at hr
        rcases List.mem_cons.mp hr with hr | hr
        · subst hr
          have ht := takeTrue_le rest
          refine ⟨le_rfl, by omega, by simp only [List.length_cons]; omega,
            ?_, Or.inl rfl, ?_⟩
          · intro j hj1 hj2
            rcases Nat.eq_or_lt_of_le hj1 with he | hlt
            · rw [show j - i = 0 by omega]; simp
            · rw [show j - i = (j - i - 1) + 1 by omega, List.getD_cons_succ]
              exact takeTrue_inside (by omega)
          · left
            rw [show i + takeTrue rest + 1 - i = takeTrue rest + 1 by omega,
              List.getD_cons_succ]
            exact takeTrue_stop rest
        · set t := takeTrue rest with hts
          have hdl : (rest.drop t).length = rest.length - t := List.length_drop _ _
          have ht := takeTrue_le rest
          obtain ⟨h1, h2, h3, h4, h5, h6⟩ :=
            ih (rest.drop t) (by omega) (i + t + 1) r hr
          have hstrict : i + t + 2 ≤ r.1 := by
            rcases Nat.eq_or_lt_of_le h1 with he | hlt
            · exfalso
              have hin := h4 r.1 le_rfl h2
              rw [show r.1 - (i + t + 1) = 0 by omega, getD_drop,
                Nat.add_zero] at hin
              have hstop := takeTrue_stop rest
              rw [← hts] at hstop
              exact Bool.false_ne_true (hstop.symm.trans hin)
            · omega
          refine ⟨by omega, h2, by simp only [List.length_cons]; omega, ?_, ?_, ?_⟩
          · intro j hj1 hj2
            have := h4 j hj1 hj2
            rw [getD_drop] at this
            rw [show j - i = (t + (j - (i + t + 1))) + 1 by omega,
              List.getD_cons_succ]
            exact this
          · rcases h5 with h5 | h5
            · omega
            · right
              rw [getD_drop] at h5
              rw [show r.1 - 1 - i = (t + (r.1 - 1 - (i + t + 1))) + 1 by omega,
                List.getD_cons_succ]
              exact h5
          · rcases h6 with h6 | h6
            · left
              rw [getD_drop] at h6
              rw [show r.2 + 1 - i = (t + (r.2 + 1 - (i + t + 1))) + 1 by omega,
                List.getD_cons_succ]
              exact h6
            · right; simp only [List.length_cons]; omega

theorem maximalRuns_complete : ∀ n (m : List Bool), m.length ≤ n → ∀ i k,
    m.getD k false = true →
      ∃ r ∈ maximalRuns i m, r.1 ≤ i + k ∧ i + k ≤ r.2 := by
  intro n
  induction n with
  | zero =>
    intro m hm i k hk
    have hnil : m = [] := List.length_eq_zero.mp (Nat.le_zero.mp hm)
    subst hnil
    simp at hk
  | succ n ih =>
    intro m hm i k hk
    cases m with
    | nil => simp at hk
    | cons b rest =>
      have hrest : rest.length ≤ n := by simpa using Nat.le_of_succ_le_succ hm
      cases b with
      | false =>
        rw [show maximalRuns i (false :: rest) = maximalRuns (i + 1) rest by
          simp [maximalRuns]]
        cases k with
        | zero => simp at hk
        | succ k =>
          rw [List.getD_cons_succ] at hk
          obtain ⟨r, hr, h1, h2⟩ := ih rest hrest (i + 1) k hk
          exact ⟨r, hr, by omega, by omega⟩
      | true =>
        rw [show maximalRuns i (true :: rest) =
            (i, i + takeTrue rest) ::
              maximalRuns (i + takeTrue rest + 1) (rest.drop (takeTrue rest)) by
          simp [maximalRuns]]
        set t := takeTrue rest with hts
        rcases Nat.lt_or_ge k (t + 1) with hlt | hge
        · exact ⟨(i, i + t), List.mem_cons_self _ _, by omega, by omega⟩
        · have hkt : k ≠ t + 1 ∨ True := Or.inr trivial
          cases k with
          | zero => omega
          | succ k =>
            rw [List.getD_cons_succ] at hk
            have hkne : k ≠ t := by
              intro he
              rw [he] at hk
              have hstop := takeTrue_stop rest
              rw [← hts] at hstop
              exact Bool.false_ne_true (hstop.symm.trans hk)
            have hkgt : t + 1 ≤ k := by omega
            have hdk : (rest.drop t).getD (k - t) false = true := by
              rw [getD_drop, show t + (k - t) = k by omega]
              exact hk
            obtain ⟨r, hr, h1, h2⟩ := ih (rest.drop t)
              (by rw [List.length_drop]; omega) (i + t + 1) (k - t) hdk
            refine ⟨r, List.mem_cons_of_mem _ hr, by omega, by omega⟩

theorem maximalRuns_pairwise : ∀ n (m : List Bool), m.length ≤ n → ∀ i,
    (maximalRuns i m).Pairwise (fun a b => a.2 + 2 ≤ b.1) := by
  intro n
  induction n with
  | zero =>
    intro m hm i
    have hnil : m = [] := List.length_eq_zero.mp (Nat.le_zero.mp hm)
    subst hnil
    simp [maximalRuns]
  | succ n ih =>
    intro m hm i
    cases m with
    | nil => simp [maximalRuns]
    | cons b rest =>
      have hrest : rest.length ≤ n := by simpa using Nat.le_of_succ_le_succ hm
      cases b with
      | false =>
        rw [show maximalRuns i (false :: rest) = maximalRuns (i + 1) rest by
          simp [maximalRuns]]
        exact ih rest hrest (i + 1)
      | true =>
        rw [show maximalRuns i (true :: rest) =
            (i, i + takeTrue rest) ::
              maximalRuns (i + takeTrue rest + 1) (rest.drop (takeTrue rest)) by
          simp [maximalRuns]]
        set t := takeTrue rest with hts
        refine List.Pairwise.cons ?_ (ih (rest.drop t)
          (by rw [List.length_drop]; omega) (i + t + 1))
        intro r hr
        obtain ⟨h1, h2, h3, h4, h5, h6⟩ := maximalRuns_facts (rest.drop t).length
          (rest.drop t) le_rfl (i + t + 1) r hr
        have hstrict : i + t + 2 ≤ r.1 := by
          rcases Nat.eq_or_lt_of_le h1 with he | hlt
          · exfalso
            have hin := h4 r.1 le_rfl h2
            rw [show r.1 - (i + t + 1) = 0 by omega, getD_drop,
              Nat.add_zero] at hin
            have hstop := takeTrue_stop rest
            rw [← hts] at hstop
            exact Bool.false_ne_true (hstop.symm.trans hin)
          · omega
        simpa using hstrict

theorem isMaxRun_unique {p : ℕ → Bool} {n : ℕ} {r r' : ℕ × ℕ} {k : ℕ}
    (h : IsMaxRun p n r) (h' : IsMaxRun p n r')
    (hk1 : r.1 ≤ k) (hk2 : k ≤ r.2) (hk3 : r'.1 ≤ k) (hk4 : k ≤ r'.2) :
    r = r' := by
  obtain ⟨hle, hlt, hin, hleft, hright⟩ := h
  obtain ⟨hle', hlt', hin', hleft', hright'⟩ := h'
  have hs : r.1 = r'.1 := by
    rcases Nat.lt_trichotomy r.1 r'.1 with hc | hc | hc
    · exfalso
      have hp : p (r'.1 - 1) = true := hin _ (by omega) (by omega)
      rcases hleft' with h0 | h0
      · omega
      · rw [h0] at hp; exact Bool.false_ne_true hp
    · exact hc
    · exfalso
      have hp : p (r.1 - 1) = true := hin' _ (by omega) (by omega)
      rcases hleft with h0 | h0
      · omega
      · rw [h0] at hp; exact Bool.false_ne_true hp
  have he : r.2 = r'.2 := by
    rcases Nat.lt_trichotomy r.2 r'.2 with hc | hc | hc
    · exfalso
      have hp : p (r.2 + 1) = true := hin' _ (by omega) (by omega)
      rcases hright with h0 | h0
      · omega
      · rw [h0] at hp; exact Bool.false_ne_true hp
    · exact hc
    · exfalso
      have hp : p (r'.2 + 1) = true := hin _ (by omega) (by omega)
      rcases hright' with h0 | h0
      · omega
      · rw [h0] at hp; exact Bool.false_ne_true hp
  exact Prod.ext hs he

theorem list_eq_map_range_getD (l : List Bool) :
    (List.range l.length).map (fun k => l.getD k false) = l := by
  apply List.ext_getElem
  · simp
  · intro i h1 h2
    simp only [List.getElem_map, List.getElem_range]
    exact List.getD_eq_getElem l false h2

theorem setRangeTrueFrom_length (s e i : ℕ) (l : List Bool) :
    (setRangeTrueFrom s e i l).length = l.length := by
  induction l generalizing i with
  | nil => simp [setRangeTrueFrom]
  | cons b rest ih => simp [setRangeTrueFrom, ih]

theorem setRangeTrueFrom_getD (s e i : ℕ) (l : List Bool) (j : ℕ) :
    (setRangeTrueFrom s e i l).getD j false =
      if s ≤ i + j ∧ i + j ≤ e ∧ j < l.length then true else l.getD j false := by
  induction l generalizing i j with
  | nil => simp [setRangeTrueFrom]
  | cons b rest ih =>
    cases j with
    | zero =>
      simp only [setRangeTrueFrom, List.getD_cons_zero, List.length_cons]
      by_cases h : s ≤ i ∧ i ≤ e
      · rw [if_pos h, if_pos (by omega)]
      · rw [if_neg h, if_neg (by omega)]
    | succ j =>
      simp only [setRangeTrueFrom, List.getD_cons_succ, List.length_cons]
      rw [ih (i + 1) j]
      by_cases h : s ≤ i + 1 + j ∧ i + 1 + j ≤ e ∧ j < rest.length
      · rw [if_pos h, if_pos (by omega)]
      · rw [if_neg h, if_neg (by omega)]

theorem setRangeTrue_getD (l : List Bool) (s e k : ℕ) :
    (setRangeTrue l s e).getD k false =
      if s ≤ k ∧ k ≤ e ∧ k < l.length then true else l.getD k false := by
  rw [setRangeTrue, setRangeTrueFrom_getD]
  simp

theorem notMap_getD {l : List Bool} {k : ℕ} (hk : k < l.length) :
    (l.map (fun b => !b)).getD k false = !(l.getD k false) := by
  induction l generalizing k with
  | nil => simp at hk
  | cons b rest ih =>
    cases k with
    | zero => simp
    | succ k =>
      simp only [List.map_cons, List.getD_cons_succ]
      exact ih (by simpa using Nat.lt_of_succ_lt_succ hk)

theorem flatnonzeroFrom_mem {l : List Bool} {i x : ℕ} :
    x ∈ flatnonzeroFrom i l ↔
      i ≤ x ∧ x - i < l.length ∧ l.getD (x - i) false = true := by
  induction l generalizing i with
  | nil => simp [flatnonzeroFrom]
  | cons b rest ih =>
    cases b with
    | true =>
      rw [show flatnonzeroFrom i (true :: rest) =
          i :: flatnonzeroFrom (i + 1) rest by simp [flatnonzeroFrom]]
      simp only [List.mem_cons, ih]
      constructor
      · rintro (h | ⟨h1, h2, h3⟩)
        · subst h; simp
        · refine ⟨by omega, by simp only [List.length_cons]; omega, ?_⟩
          rw [show x - i = (x - (i + 1)) + 1 by omega, List.getD_cons_succ]
          exact h3
      · rintro ⟨h1, h2, h3⟩
        rcases Nat.eq_or_lt_of_le h1 with he | hlt
        · exact Or.inl he.symm
        · right
          refine ⟨by omega, by simp only [List.length_cons] at h2; omega, ?_⟩
          rw [show x - i = (x - (i + 1)) + 1 by omega, List.getD_cons_succ] at h3
          exact h3
    | false =>
      rw [show flatnonzeroFrom i (false :: rest) =
          flatnonzeroFrom (i + 1) rest by simp [flatnonzeroFrom]]
      rw [ih]
      constructor
      · rintro ⟨h1, h2, h3⟩
        refine ⟨by omega, by simp only [List.length_cons]; omega, ?_⟩
        rw [show x - i = (x - (i + 1)) + 1 by omega, List.getD_cons_succ]
        exact h3
      · rintro ⟨h1, h2, h3⟩
        rcases Nat.eq_or_lt_of_le h1 with he | hlt
        · exfalso
          rw [show x - i = 0 by omega, List.getD_cons_zero] at h3
          exact Bool.false_ne_true h3
        · refine ⟨by omega, by simp only [List.length_cons] at h2; omega, ?_⟩
          rw [show x - i = (x - (i + 1)) + 1 by omega, List.getD_cons_succ] at h3
          exact h3

theorem isMaxRun_congr {p p' : ℕ → Bool} {n : ℕ}
    (h : ∀ j, j < n → p j = p' j) {r : ℕ × ℕ} :
    IsMaxRun p n r → IsMaxRun p' n r := by
  rintro ⟨h1, h2, h3, h4, h5⟩
  refine ⟨h1, h2, ?_, ?_, ?_⟩
  · intro j hj1 hj2
    rw [← h j (by omega)]
    exact h3 j hj1 hj2
  · rcases h4 with h4 | h4
    · exact Or.inl h4
    · right; rw [← h _ (by omega)]; exact h4
  · rcases h5 with h5 | h5
    · exact Or.inl h5
    · rcases Nat.lt_or_ge (r.2 + 1) n with hn | hn
      · right; rw [← h _ hn]; exact h5
      · left; omega

theorem maximalRuns_isMaxRun {m : List Bool} {r : ℕ × ℕ}
    (hr : r ∈ maximalRuns 0 m) :
    IsMaxRun (fun j => m.getD j false) m.length r := by
  obtain ⟨h1, h2, h3, h4, h5, h6⟩ := maximalRuns_facts m.length m le_rfl 0 r hr
  refine ⟨h2, by simpa using h3, ?_, ?_, ?_⟩
  · intro j hj1 hj2
    simpa using h4 j hj1 hj2
  · rcases h5 with h5 | h5
    · exact Or.inl h5
    · right; simpa using h5
  · rcases h6 with h6 | h6
    · right; simpa using h6
    · left; omega

theorem runStartEnd_isMaxRun {p : ℕ → Bool} {n k : ℕ} (hk : p k = true)
    (hkn : k < n) : IsMaxRun p n (runStart p k, runEnd p n k) ∧
      runStart p k ≤ k ∧ k ≤ runEnd p n k := by
  refine ⟨⟨?_, ?_, ?_, ?_, ?_⟩, runStart_le p k, runEnd_ge p n k⟩
  · exact le_trans (runStart_le p k) (runEnd_ge p n k)
  · exact runEnd_lt hkn
  · intro j h1 h2
    rcases Nat.le_total j k with hj | hj
    · exact runStart_inside hk j h1 hj
    · exact runEnd_inside hk j hj h2
  · exact runStart_boundary p k
  · exact runEnd_boundary p k hkn

theorem bridgeBody_eq {maxGap : ℤ} {l acc : List Bool} {r : ℕ × ℕ}
    (hlen : acc.length = l.length)
    (hmono : ∀ k, k < l.length → l.getD k false = true → acc.getD k false = true)
    (hr : IsMaxRun (fun j => (l.map (fun b => !b)).getD j false) l.length r) :
    bridgeBody maxGap acc r =
      if bridgeCond maxGap l r = true then setRangeTrue acc r.1 r.2 else acc := by
  obtain ⟨h1, h2, _, h4, h5⟩ := hr
  have h4' : r.1 = 0 ∨ (l.map (fun b => !b)).getD (r.1 - 1) false = false := h4
  have h5' : r.2 + 1 = l.length ∨
      (l.map (fun b => !b)).getD (r.2 + 1) false = false := h5
  simp only [bridgeBody, bridgeCond]
  by_cases hgap : ((r.2 : ℤ) - r.1 + 1) ≤ maxGap
  · rw [if_pos hgap]
    have hleft : (decide (0 < r.1) && acc.getD (r.1 - 1) false) =
        (decide (0 < r.1) && l.getD (r.1 - 1) false) := by
      rcases Nat.eq_zero_or_pos r.1 with h0 | h0
      · simp [h0]
      · have hb : l.getD (r.1 - 1) false = true := by
          rcases h4' with h4' | h4'
          · omega
          · have hlt : r.1 - 1 < l.length := by omega
            rw [notMap_getD hlt] at h4'
            simpa using h4'
        rw [hb, hmono (r.1 - 1) (by omega) hb]
    have hright : (decide (r.2 < acc.length - 1) && acc.getD (r.2 + 1) false) =
        (decide (r.2 < l.length - 1) && l.getD (r.2 + 1) false) := by
      rw [hlen]
      rcases Nat.lt_or_ge r.2 (l.length - 1) with hl | hl
      · have hb : l.getD (r.2 + 1) false = true := by
          rcases h5' with h5' | h5'
          · omega
          · have hlt : r.2 + 1 < l.length := by omega
            rw [notMap_getD hlt] at h5'
            simpa using h5'
        rw [hb, hmono (r.2 + 1) (by omega) hb]
      · have hd : decide (r.2 < l.length - 1) = false := decide_eq_false (by omega)
        rw [hd]
        simp
    rw [hleft, hright]
    simp only [decide_eq_true hgap, Bool.true_and]
  · rw [if_neg hgap]
    have hd : decide (((r.2 : ℤ) - r.1 + 1) ≤ maxGap) = false := decide_eq_false hgap
    simp only [hd, Bool.false_and]
    simp

theorem bridge_fold_char (maxGap : ℤ) (l : List Bool) :
    ∀ (runs : List (ℕ × ℕ)) (acc : List Bool),
      acc.length = l.length →
      (∀ k, k < l.length → l.getD k false = true → acc.getD k false = true) →
      (∀ r ∈ runs,
        IsMaxRun (fun j => (l.map (fun b => !b)).getD j false) l.length r) →
      (runs.foldl (bridgeBody maxGap) acc).length = l.length ∧
        ∀ k, (runs.foldl (bridgeBody maxGap) acc).getD k false =
          (acc.getD k false ||
            runs.any (fun r =>
              decide (r.1 ≤ k ∧ k ≤ r.2) && bridgeCond maxGap l r)) := by
  intro runs
  induction runs with
  | nil =>
    intro acc hlen _ _
    exact ⟨hlen, fun k => by simp⟩
  | cons r rest ih =>
    intro acc hlen hmono hruns
    have hr := hruns r (List.mem_cons_self _ _)
    have hbody := @bridgeBody_eq maxGap _ _ _ hlen hmono hr
    have hstep : ∀ k, (bridgeBody maxGap acc r).getD k false =
        (acc.getD k false ||
          (decide (r.1 ≤ k ∧ k ≤ r.2) && bridgeCond maxGap l r)) := by
      intro k
      rw [hbody]
      cases hc : bridgeCond maxGap l r with
      | true =>
        rw [if_pos rfl, Bool.and_true, setRangeTrue_getD]
        by_cases hk : r.1 ≤ k ∧ k ≤ r.2
        · have hkl : k < acc.length := by
            rw [hlen]
            have := hr.2.1
            omega
          rw [if_pos ⟨hk.1, hk.2, hkl⟩, decide_eq_true hk]
          simp
        · rw [if_neg (by intro hcontra; exact hk ⟨hcontra.1, hcontra.2.1⟩),
            decide_eq_false hk]
          simp
      | false =>
        rw [if_neg (by simp)]
        simp
    have hlen' : (bridgeBody maxGap acc r).length = l.length := by
      rw [hbody]
      by_cases hc : bridgeCond maxGap l r = true
      · rw [if_pos hc, setRangeTrue, setRangeTrueFrom_length]
        exact hlen
      · rw [if_neg hc]
        exact hlen
    have hmono' : ∀ k, k < l.length → l.getD k false = true →
        (bridgeBody maxGap acc r).getD k false = true := by
      intro k hk hkl
      rw [hstep k, hmono k hk hkl]
      simp
    obtain ⟨hlen'', hchar⟩ := ih (bridgeBody maxGap acc r) hlen' hmono'
      (fun r' hr' => hruns r' (List.mem_cons_of_mem _ hr'))
    refine ⟨by simpa [List.foldl_cons] using hlen'', ?_⟩
    intro k
    rw [List.foldl_cons, hchar k, hstep k, List.any_cons]
    rw [Bool.or_assoc]

theorem bridgedSpec_of_inactive_all_active {maxGap : ℤ} {l : List Bool}
    (hpt : ∀ k, k < l.length → bridgedSpec maxGap l k = l.getD k false) :
    l = (List.range l.length).map (fun k => bridgedSpec maxGap l k) := by
  have : (List.range l.length).map (fun k => bridgedSpec maxGap l k) =
      (List.range l.length).map (fun k => l.getD k false) :=
    List.map_congr_left (fun k hk => hpt k (List.mem_range.mp hk))
  rw [this, list_eq_map_range_getD]

theorem bridgeGaps_eq_spec (maxGap : ℤ) (l : List Bool) :
    bridgeGaps maxGap l =
      (List.range l.length).map (fun k => bridgedSpec maxGap l k) := by
  simp only [bridgeGaps]
  by_cases hg : 0 < maxGap ∧ 0 < l.length
  · rw [if_pos hg]
    by_cases hie : (flatnonzero (l.map (fun b => !b))).isEmpty = true
    · rw [if_pos hie]
      apply bridgedSpec_of_inactive_all_active
      intro k hk
      have hnil : flatnonzeroFrom 0 (l.map (fun b => !b)) = [] := by
        rwa [← flatnonzero, ← List.isEmpty_iff]
      have hnm : (l.map (fun b => !b)).getD k false = false := by
        by_contra hcon
        have hmem : k ∈ flatnonzeroFrom 0 (l.map (fun b => !b)) := by
          rw [flatnonzeroFrom_mem]
          refine ⟨Nat.zero_le _, ?_, ?_⟩
          · rw [Nat.sub_zero, List.length_map]; exact hk
          · rw [Nat.sub_zero]
            cases hx : (l.map (fun b => !b)).getD k false
            · exact absurd hx hcon
            · rfl
        rw [hnil] at hmem
        simp at hmem
      rw [notMap_getD hk] at hnm
      have hl : l.getD k false = true := by
        cases hx : l.getD k false
        · rw [hx] at hnm; simp at hnm
        · rfl
      rw [bridgedSpec, hl, Bool.true_or]
    · rw [if_neg hie]
      rw [groupRuns_flatnonzero]
      have hruns : ∀ r ∈ maximalRuns 0 (l.map (fun b => !b)),
          IsMaxRun (fun j => (l.map (fun b => !b)).getD j false) l.length r := by
        intro r hr
        have := maximalRuns_isMaxRun hr
        rwa [List.length_map] at this
      obtain ⟨hlen, hchar⟩ := bridge_fold_char maxGap l
        (maximalRuns 0 (l.map (fun b => !b))) l rfl (fun _ _ h => h) hruns
      apply List.ext_getElem
      · rw [hlen, List.length_map, List.length_range]
      · intro k hk1 hk2
        have hkl : k < l.length := by rwa [hlen] at hk1
        rw [← List.getD_eq_getElem _ false hk1, hchar k, List.getElem_map,
          List.getElem_range]
        cases hcase : l.getD k false with
        | true =>
          rw [bridgedSpec, hcase, Bool.true_or, Bool.true_or]
        | false =>
          rw [Bool.false_or, bridgedSpec, hcase, Bool.false_or]
          have hm : (l.map (fun b => !b)).getD k false = true := by
            rw [notMap_getD hkl, hcase]
            rfl
          have hpbk : (fun j => !(l.getD j false)) k = true := by
            show (!(l.getD k false)) = true
            rw [hcase]
            rfl
          obtain ⟨hmaxpb, hsk, hke⟩ :=
            @runStartEnd_isMaxRun (fun j => !(l.getD j false)) _ _ hpbk hkl
          have hmax : IsMaxRun (fun j => (l.map (fun b => !b)).getD j false)
              l.length (runStart (fun j => !(l.getD j false)) k,
                runEnd (fun j => !(l.getD j false)) l.length k) := by
            refine isMaxRun_congr (fun j hj => ?_) hmaxpb
            rw [notMap_getD hj]
          rw [Bool.eq_iff_iff]
          simp only [List.any_eq_true, Bool.and_eq_true, decide_eq_true_eq,
        bridgeCond]
          constructor
          · rintro ⟨r, hrmem, ⟨hc1, hc2⟩, ⟨hb1, hb2, hb3⟩, hb4, hb5⟩
            have hre : r = (runStart (fun j => !(l.getD j false)) k,
                runEnd (fun j => !(l.getD j false)) l.length k) :=
              isMaxRun_unique (hruns r hrmem) hmax hc1 hc2 hsk hke
            rw [hre] at hb1 hb2 hb3 hb4 hb5
            exact ⟨⟨⟨⟨hb1, hb2⟩, hb3⟩, by omega⟩, hb5⟩
          · rintro ⟨⟨⟨⟨hb1, hb2⟩, hb3⟩, hb4⟩, hb5⟩
            obtain ⟨r, hrmem, hc1, hc2⟩ :=
              maximalRuns_complete (l.map (fun b => !b)).length
                (l.map (fun b => !b)) le_rfl 0 k hm
            rw [Nat.zero_add] at hc1 hc2
            have hre : r = (runStart (fun j => !(l.getD j false)) k,
                runEnd (fun j => !(l.getD j false)) l.length k) :=
              isMaxRun_unique (hruns r hrmem) hmax hc1 hc2 hsk hke
            refine ⟨r, hrmem, ⟨hc1, hc2⟩, ?_⟩
            rw [hre]
            exact ⟨⟨hb1, hb2, hb3⟩, by omega, hb5⟩
  · rw [if_neg hg]
    apply bridgedSpec_of_inactive_all_active
    intro k hk
    have hgap : maxGap ≤ 0 := by
      rcases Nat.lt_or_ge 0 l.length with h0 | h0
      · by_contra hcon
        exact hg ⟨by omega, h0⟩
      · omega
    have hse := runStart_le (fun j => !(l.getD j false)) k
    have hek := runEnd_ge (fun j => !(l.getD j false)) l.length k
    have hd : decide (((runEnd (fun j => !(l.getD j false)) l.length k : ℤ) -
        (runStart (fun j => !(l.getD j false)) k : ℤ) + 1) ≤ maxGap) = false := by
      apply decide_eq_false
      intro hcon
      omega
    rw [bridgedSpec, hd]
    simp

theorem detect_eq_spec (df : MinuteDf) (cfg : EpisodeDetectConfig) :
    detect_queue_episodes df cfg = spec_detect_queue_episodes df cfg := by
  simp only [detect_queue_episodes, spec_detect_queue_episodes]
  by_cases hmiss : (missingMinuteCols df).isEmpty = true
  · rw [if_pos hmiss, if_pos hmiss]
    rw [bridgeGaps_eq_spec]
    have hlen : ((List.range (activeList (sortByMinute df.rows)
        cfg.active_threshold).length).map
          (fun k => bridgedSpec cfg.max_gap_minutes
            (activeList (sortByMinute df.rows) cfg.active_threshold) k)).length =
        (activeList (sortByMinute df.rows) cfg.active_threshold).length := by
      rw [List.length_map, List.length_range]
    by_cases hie : (flatnonzero ((List.range (activeList (sortByMinute df.rows)
        cfg.active_threshold).length).map
          (fun k => bridgedSpec cfg.max_gap_minutes
            (activeList (sortByMinute df.rows) cfg.active_threshold) k))).isEmpty
          = true
    · rw [if_pos hie]
      have hnil := groupRuns_flatnonzero ((List.range (activeList
        (sortByMinute df.rows) cfg.active_threshold).length).map
          (fun k => bridgedSpec cfg.max_gap_minutes
            (activeList (sortByMinute df.rows) cfg.active_threshold) k))
      rw [List.isEmpty_iff] at hie
      rw [hie] at hnil
      rw [show groupRuns ([] : List ℕ) = [] from rfl] at hnil
      rw [← hnil]
      rfl
    · rw [if_neg hie, groupRuns_flatnonzero]
  · rw [if_neg hmiss, if_neg hmiss]

/-! ## Lemmas: episode emission and the per-episode write loop -/

theorem emitEpisodes_ids (cfg : EpisodeDetectConfig) (work : List MinuteRow) :
    ∀ (runs : List (ℕ × ℕ)) (c : ℕ),
      (emitEpisodes cfg work runs c).map (fun ep => ep.episode_id) =
        List.range' (c + 1) (emitEpisodes cfg work runs c).length := by
  intro runs
  induction runs with
  | nil => intro c; simp [emitEpisodes]
  | cons se rest ih =>
    intro c
    obtain ⟨s, e⟩ := se
    simp only [emitEpisodes]
    by_cases h1 : ((e : ℤ) - (s : ℤ) + 1) < cfg.min_active_minutes
    · rw [if_pos h1]; exact ih c
    · rw [if_neg h1]
      by_cases h2 : min ((work.length : ℤ) - 1) ((e : ℤ) + cfg.buffer_minutes) -
          max 0 ((s : ℤ) - cfg.buffer_minutes) + 1 < cfg.min_episode_minutes
      · rw [if_pos h2]; exact ih c
      · rw [if_neg h2]
        simp only [List.map_cons, List.length_cons, ih (c + 1)]
        rw [List.range'_succ]

theorem emitEpisodes_mem (cfg : EpisodeDetectConfig) (work : List MinuteRow) :
    ∀ (runs : List (ℕ × ℕ)) (c : ℕ) (ep : EpisodeRow),
      ep ∈ emitEpisodes cfg work runs c →
      ∃ r ∈ runs, ep.start_idx = max 0 ((r.1 : ℤ) - cfg.buffer_minutes) ∧
        ep.end_idx = min ((work.length : ℤ) - 1) ((r.2 : ℤ) + cfg.buffer_minutes) := by
  intro runs
  induction runs with
  | nil => intro c ep h; simp [emitEpisodes] at h
  | cons se rest ih =>
    intro c ep h
    obtain ⟨s, e⟩ := se
    simp only [emitEpisodes] at h
    by_cases h1 : ((e : ℤ) - (s : ℤ) + 1) < cfg.min_active_minutes
    · rw [if_pos h1] at h
      obtain ⟨r, hr, h2⟩ := ih c ep h
      exact ⟨r, List.mem_cons_of_mem _ hr, h2⟩
    · rw [if_neg h1] at h
      by_cases h2 : min ((work.length : ℤ) - 1) ((e : ℤ) + cfg.buffer_minutes) -
          max 0 ((s : ℤ) - cfg.buffer_minutes) + 1 < cfg.min_episode_minutes
      · rw [if_pos h2] at h
        obtain ⟨r, hr, h3⟩ := ih c ep h
        exact ⟨r, List.mem_cons_of_mem _ hr, h3⟩
      · rw [if_neg h2] at h
        rcases List.mem_cons.mp h with h3 | h3
        · subst h3
          exact ⟨(s, e), List.mem_cons_self _ _, rfl, rfl⟩
        · obtain ⟨r, hr, h4⟩ := ih (c + 1) ep h3
          exact ⟨r, List.mem_cons_of_mem _ hr, h4⟩

theorem emitEpisodes_pairwise (cfg : EpisodeDetectConfig) (work : List MinuteRow) :
    ∀ (runs : List (ℕ × ℕ)) (c : ℕ),
      runs.Pairwise (fun a b => a.1 ≤ b.1 ∧ a.2 ≤ b.2) →
      (emitEpisodes cfg work runs c).Pairwise
        (fun a b => a.start_idx ≤ b.start_idx ∧ a.end_idx ≤ b.end_idx) := by
  intro runs
  induction runs with
  | nil => intro c _; simp [emitEpisodes]
  | cons se rest ih =>
    intro c hp
    obtain ⟨s, e⟩ := se
    rw [List.pairwise_cons] at hp
    simp only [emitEpisodes]
    by_cases h1 : ((e : ℤ) - (s : ℤ) + 1) < cfg.min_active_minutes
    · rw [if_pos h1]; exact ih c hp.2
    · rw [if_neg h1]
      by_cases h2 : min ((work.length : ℤ) - 1) ((e : ℤ) + cfg.buffer_minutes) -
          max 0 ((s : ℤ) - cfg.buffer_minutes) + 1 < cfg.min_episode_minutes
      · rw [if_pos h2]; exact ih c hp.2
      · rw [if_neg h2]
        refine List.Pairwise.cons ?_ (ih (c + 1) hp.2)
        intro ep hep
        obtain ⟨r, hr, hst, hen⟩ := emitEpisodes_mem cfg work rest (c + 1) ep hep
        obtain ⟨hr1, hr2⟩ := hp.1 r hr
        constructor
        · rw [hst]
          exact max_le_max le_rfl (by omega)
        · rw [hen]
          exact min_le_min le_rfl (by omega)

theorem writeEpisode_length (out : List ReconRow) (ep : EpisodeRow)
    (rec : List RecRow) : (writeEpisode out ep rec).length = out.length := by
  rw [writeEpisode, List.length_map, List.enum_length]

theorem writeEpisode_episode_id (out : List ReconRow) (ep : EpisodeRow)
    (rec : List RecRow) (k : ℕ) (hk : k < out.length)
    (d : ReconRow) (d' : ReconRow) :
    ((writeEpisode out ep rec).getD k d).episode_id =
      if ep.start_idx ≤ (k : ℤ) ∧ (k : ℤ) ≤ ep.end_idx then
        some (ep.episode_id : ℤ)
      else (out.getD k d').episode_id := by
  have hk' : k < (writeEpisode out ep rec).length := by
    rwa [writeEpisode_length]
  rw [List.getD_eq_getElem _ _ hk', List.getD_eq_getElem _ _ hk]
  simp only [writeEpisode, List.getElem_map, List.getElem_enum]
  by_cases h : ep.start_idx ≤ (k : ℤ) ∧ (k : ℤ) ≤ ep.end_idx
  · rw [if_pos h, if_pos h]
  · rw [if_neg h, if_neg h]

theorem applyEpisodes_episode_id (solver : QpSolver) (rcfg : ReconcileConfig)
    (work : List MinuteRow) :
    ∀ (eps : List EpisodeRow) (out res : List ReconRow),
      applyEpisodes solver rcfg work eps out = Except.ok res →
      res.length = out.length ∧
        ∀ (k : ℕ) (d : ReconRow), k < out.length →
          (res.getD k d).episode_id =
            eps.foldl (fun acc ep =>
              if ep.start_idx ≤ (k : ℤ) ∧ (k : ℤ) ≤ ep.end_idx then
                some (ep.episode_id : ℤ)
              else acc) ((out.getD k d).episode_id) := by
  intro eps
  induction eps with
  | nil =>
    intro out res h
    rw [applyEpisodes] at h
    cases h
    exact ⟨rfl, fun k d _ => rfl⟩
  | cons ep rest ih =>
    intro out res h
    rw [applyEpisodes] at h
    cases hrec : reconcile_minute_flows solver
        ⟨["minute_start_utc", "in_count", "out_count"],
          sliceRows work ep.start_idx ep.end_idx⟩ rcfg with
    | error e => rw [hrec] at h; cases h
    | ok rec =>
      rw [hrec] at h
      obtain ⟨hlen, hchar⟩ := ih (writeEpisode out ep rec) res h
      constructor
      · rw [hlen, writeEpisode_length]
      · intro k d hk
        rw [List.foldl_cons]
        rw [hchar k d (by rwa [writeEpisode_length]),
          writeEpisode_episode_id out ep rec k hk d d]

/-! ## Lemmas: FIFO wait reconstruction -/

theorem advanceCursor_char (cumIn : List ℚ) (target tol : ℚ) (c : ℕ) :
    c ≤ advanceCursor cumIn target tol c ∧
      ¬(advanceCursor cumIn target tol c < cumIn.length - 1 ∧
        cumIn.getD (advanceCursor cumIn target tol c) 0 < target - tol) ∧
      ∀ v, c ≤ v → v < advanceCursor cumIn target tol c →
        v < cumIn.length - 1 ∧ cumIn.getD v 0 < target - tol := by
  by_cases h : c < cumIn.length - 1 ∧ cumIn.getD c 0 < target - tol
  · rw [advanceCursor, dif_pos h]
    obtain ⟨h1, h2, h3⟩ := advanceCursor_char cumIn target tol (c + 1)
    refine ⟨by omega, h2, ?_⟩
    intro v hv1 hv2
    rcases Nat.eq_or_lt_of_le hv1 with he | hlt
    · exact he ▸ h
    · exact h3 v hlt hv2
  · rw [advanceCursor, dif_neg h]
    exact ⟨le_rfl, h, fun v hv1 hv2 => absurd (Nat.lt_of_le_of_lt hv1 hv2)
      (lt_irrefl c)⟩
termination_by cumIn.length - c
decreasing_by
  exact Nat.sub_succ_lt_self _ _ (by omega)

theorem fifoAux_length (n : ℕ) (cumIn cumOut outFlow : List ℚ) (eps tol : ℚ) :
    ∀ (k tIn : ℕ),
      (fifoAux n cumIn cumOut outFlow eps tol tIn k).length = n - k := by
  intro k
  by_cases hk : k < n
  · intro tIn
    rw [fifoAux, if_pos hk]
    by_cases ho : outFlow.getD k 0 ≤ eps
    · rw [if_pos ho, List.length_cons,
        fifoAux_length n cumIn cumOut outFlow eps tol (k + 1)]
      omega
    · rw [if_neg ho, List.length_cons,
        fifoAux_length n cumIn cumOut outFlow eps tol (k + 1)]
      omega
  · intro tIn
    rw [fifoAux, if_neg hk]
    simp
    omega
termination_by k => n - k
decreasing_by
  · exact Nat.sub_succ_lt_self _ _ hk
  · exact Nat.sub_succ_lt_self _ _ hk

theorem fifoAux_eq_specWait (n : ℕ) (cumIn cumOut outFlow : List ℚ)
    (eps tol : ℚ) :
    ∀ (k kj : ℕ), k ≤ kj → kj < n →
      (fifoAux n cumIn cumOut outFlow eps tol
          (specCursor cumIn cumOut outFlow eps tol k) k).getD (kj - k) none =
        specWait cumIn cumOut outFlow eps tol kj := by
  intro k kj hkkj hkj
  have hk : k < n := by omega
  rw [fifoAux, if_pos hk]
  by_cases ho : outFlow.getD k 0 ≤ eps
  · rw [if_pos ho]
    rcases Nat.eq_or_lt_of_le hkkj with he | hlt
    · rw [← he, Nat.sub_self, List.getD_cons_zero, specWait, if_pos ho]
    · rw [show kj - k = (kj - (k + 1)) + 1 by omega, List.getD_cons_succ]
      have hcur : specCursor cumIn cumOut outFlow eps tol (k + 1) =
          specCursor cumIn cumOut outFlow eps tol k := by
        rw [specCursor]
        simp only [if_pos ho]
      rw [← hcur]
      exact fifoAux_eq_specWait n cumIn cumOut outFlow eps tol (k + 1) kj
        (by omega) hkj
  · rw [if_neg ho]
    rcases Nat.eq_or_lt_of_le hkkj with he | hlt
    · rw [← he, Nat.sub_self, List.getD_cons_zero, specWait, if_neg ho]
    · rw [show kj - k = (kj - (k + 1)) + 1 by omega, List.getD_cons_succ]
      have hcur : specCursor cumIn cumOut outFlow eps tol (k + 1) =
          advanceCursor cumIn (cumOut.getD k 0) tol
            (specCursor cumIn cumOut outFlow eps tol k) := by
        rw [specCursor]
        simp only [if_neg ho]
      rw [← hcur]
      exact fifoAux_eq_specWait n cumIn cumOut outFlow eps tol (k + 1) kj
        (by omega) hkj
termination_by k kj => n - k
decreasing_by
  · exact Nat.sub_succ_lt_self _ _ hk
  · exact Nat.sub_succ_lt_self _ _ hk

theorem fifo_wait_single_segment_getD (inFlow outFlow : List ℚ) (eps tol : ℚ)
    (k : ℕ) (hk : k < inFlow.length) :
    (fifo_wait_single_segment inFlow outFlow eps tol).getD k none =
      specWait (cumsum inFlow) (cumsum outFlow) outFlow eps tol k := by
  rw [fifo_wait_single_segment]
  rw [if_neg (by omega)]
  have := fifoAux_eq_specWait inFlow.length (cumsum inFlow) (cumsum outFlow)
    outFlow eps tol 0 k (Nat.zero_le _) hk
  rw [show specCursor (cumsum inFlow) (cumsum outFlow) outFlow eps tol 0 = 0
    from rfl] at this
  rw [Nat.sub_zero] at this
  exact this

theorem fifo_wait_single_segment_length (inFlow outFlow : List ℚ)
    (eps tol : ℚ) :
    (fifo_wait_single_segment inFlow outFlow eps tol).length =
      inFlow.length := by
  rw [fifo_wait_single_segment]
  by_cases h : inFlow.length = 0
  · rw [if_pos h]
    simp [h]
  · rw [if_neg h, fifoAux_length]
    omega

/-! ## Lemmas: per-episode FIFO scoping -/

theorem filter_congr_mask {α : Type} (p : α → Bool) (d : α)
    (hpd : p d = false) :
    ∀ (l1 l2 : List α),
      (∀ i, p (l1.getD i d) = p (l2.getD i d)) →
      (∀ i, p (l1.getD i d) = true → l1.getD i d = l2.getD i d) →
      l1.filter p = l2.filter p := by
  intro l1
  induction l1 with
  | nil =>
    intro l2 hmask _
    rw [List.filter_nil]
    symm
    rw [List.filter_eq_nil_iff]
    intro a ha
    obtain ⟨i, hi, hgi⟩ := List.mem_iff_getElem.mp ha
    have : p (l2.getD i d) = false := by
      rw [← hmask i]
      simp [hpd]
    rw [List.getD_eq_getElem _ _ hi, hgi] at this
    simp [this]
  | cons a t1 ih =>
    intro l2 hmask hdata
    cases l2 with
    | nil =>
      rw [List.filter_nil, List.filter_eq_nil_iff]
      intro x hx
      obtain ⟨i, hi, hgi⟩ := List.mem_iff_getElem.mp hx
      have : p ((a :: t1).getD i d) = false := by
        rw [hmask i]
        simp [hpd]
      rw [List.getD_eq_getElem _ _ hi, hgi] at this
      simp [this]
    | cons b t2 =>
      have hm0 : p a = p b := by simpa using hmask 0
      have htail : t1.filter p = t2.filter p := by
        refine ih t2 (fun i => ?_) (fun i h => ?_)
        · simpa [List.getD_cons_succ] using hmask (i + 1)
        · simpa [List.getD_cons_succ] using hdata (i + 1)
            (by simpa [List.getD_cons_succ] using h)
      rw [List.filter_cons, List.filter_cons, htail, hm0]
      cases hb : p b
      · rfl
      · have hab : a = b := by
          have := hdata 0 (by simpa using hm0.trans hb)
          simpa using this
        rw [hab]

theorem filter_take_length_congr {α : Type} (p : α → Bool) (d : α)
    (hpd : p d = false) :
    ∀ (l1 l2 : List α),
      (∀ i, p (l1.getD i d) = p (l2.getD i d)) →
      ∀ j, ((l1.take j).filter p).length = ((l2.take j).filter p).length := by
  intro l1
  induction l1 with
  | nil =>
    intro l2 hmask j
    rw [List.take_nil, List.filter_nil, List.length_nil]
    symm
    rw [List.length_eq_zero, List.filter_eq_nil_iff]
    intro a ha
    have ha2 := List.mem_of_mem_take ha
    obtain ⟨i, hi, hgi⟩ := List.mem_iff_getElem.mp ha2
    have : p (l2.getD i d) = false := by
      rw [← hmask i]
      simp [hpd]
    rw [List.getD_eq_getElem _ _ hi, hgi] at this
    simp [this]
  | cons a t1 ih =>
    intro l2 hmask j
    cases l2 with
    | nil =>
      rw [List.take_nil, List.filter_nil, List.length_nil]
      rw [List.length_eq_zero, List.filter_eq_nil_iff]
      intro x hx
      have hx2 := List.mem_of_mem_take hx
      obtain ⟨i, hi, hgi⟩ := List.mem_iff_getElem.mp hx2
      have : p ((a :: t1).getD i d) = false := by
        rw [hmask i]
        simp [hpd]
      rw [List.getD_eq_getElem _ _ hi, hgi] at this
      simp [this]
    | cons b t2 =>
      cases j with
      | zero => simp
      | succ j =>
        have hm0 : p a = p b := by simpa using hmask 0
        have htail := ih t2
          (fun i => by simpa [List.getD_cons_succ] using hmask (i + 1)) j
        rw [List.take_succ_cons, List.take_succ_cons, List.filter_cons,
          List.filter_cons, hm0]
        cases hb : p b <;> simp [htail]

theorem scatterWaits_length (eid : ℤ) :
    ∀ (rows : List FifoRow) (acc ws : List (Option ℚ)),
      (scatterWaits eid rows acc ws).length = acc.length := by
  intro rows
  induction rows with
  | nil => intro acc ws; rfl
  | cons r rs ih =>
    intro acc ws
    cases acc with
    | nil => rfl
    | cons a accs =>
      rw [scatterWaits]
      by_cases h : fifoMatch eid r = true
      · rw [if_pos h, List.length_cons, List.length_cons, ih]
      · rw [if_neg h, List.length_cons, List.length_cons, ih]

theorem scatterWaits_preserve (eid : ℤ) :
    ∀ (rows : List FifoRow) (acc ws : List (Option ℚ)) (j : ℕ),
      fifoMatch eid (rows.getD j ⟨0, 0, none, false⟩) = false →
      (scatterWaits eid rows acc ws).getD j none = acc.getD j none := by
  intro rows
  induction rows with
  | nil => intro acc ws j _; rfl
  | cons r rs ih =>
    intro acc ws j hj
    cases acc with
    | nil => rfl
    | cons a accs =>
      rw [scatterWaits]
      cases j with
      | zero =>
        rw [List.getD_cons_zero] at hj
        rw [if_neg (by rw [hj]; exact Bool.false_ne_true)]
        rfl
      | succ j =>
        rw [List.getD_cons_succ] at hj
        by_cases h : fifoMatch eid r = true
        · rw [if_pos h, List.getD_cons_succ, List.getD_cons_succ]
          exact ih accs ws.tail j hj
        · rw [if_neg h, List.getD_cons_succ, List.getD_cons_succ]
          exact ih accs ws j hj

theorem scatterWaits_write (eid : ℤ) :
    ∀ (rows : List FifoRow) (acc ws : List (Option ℚ)) (j : ℕ),
      acc.length = rows.length →
      fifoMatch eid (rows.getD j ⟨0, 0, none, false⟩) = true →
      (scatterWaits eid rows acc ws).getD j none =
        ws.getD (((rows.take j).filter (fifoMatch eid)).length) none := by
  intro rows
  induction rows with
  | nil =>
    intro acc ws j _ hj
    rw [List.getD_nil] at hj
    simp [fifoMatch] at hj
  | cons r rs ih =>
    intro acc ws j hlen hj
    cases acc with
    | nil => simp at hlen
    | cons a accs =>
      rw [scatterWaits]
      cases j with
      | zero =>
        rw [List.getD_cons_zero] at hj
        rw [if_pos hj, List.getD_cons_zero, List.take_zero, List.filter_nil,
          List.length_nil]
        cases ws with
        | nil => rfl
        | cons w wt => rfl
      | succ j =>
        rw [List.getD_cons_succ] at hj
        have hlen' : accs.length = rs.length := by simpa using hlen
        rw [List.take_succ_cons, List.filter_cons]
        by_cases h : fifoMatch eid r = true
        · rw [if_pos h, List.getD_cons_succ, ih accs ws.tail j hlen' hj]
          rw [h, if_pos rfl, List.length_cons]
          cases ws with
          | nil => simp
          | cons w wt => simp [List.getD_cons_succ]
        · rw [if_neg h, List.getD_cons_succ, ih accs ws j hlen' hj]
          rw [Bool.eq_false_iff.mpr h, if_neg (by simp)]

theorem foldScatter_preserve (rows : List FifoRow) (eps tol : ℚ) (j : ℕ) :
    ∀ (ids : List ℤ) (acc : List (Option ℚ)),
      (∀ eid ∈ ids, fifoMatch eid (rows.getD j ⟨0, 0, none, false⟩) = false) →
      ((ids.foldl (fun acc eid =>
        scatterWaits eid rows acc (segWaits rows eid eps tol)) acc)).getD j none =
        acc.getD j none := by
  intro ids
  induction ids with
  | nil => intro acc _; rfl
  | cons eid rest ih =>
    intro acc hall
    rw [List.foldl_cons, ih _ (fun x hx => hall x (List.mem_cons_of_mem _ hx)),
      scatterWaits_preserve eid rows acc _ j
        (hall eid (List.mem_cons_self _ _))]

theorem fifoMatch_ne {rows : List FifoRow} {e x : ℤ} {j : ℕ}
    (hmask : episodeMask rows e j = true) (hxe : x ≠ e) :
    fifoMatch x (rows.getD j ⟨0, 0, none, false⟩) = false := by
  rw [episodeMask, fifoMatch, Bool.and_eq_true] at hmask
  obtain ⟨h1, h2⟩ := hmask
  rw [fifoMatch, h1, Bool.true_and]
  have hid : (rows.getD j ⟨0, 0, none, false⟩).episode_id = some e :=
    of_decide_eq_true h2
  rw [hid]
  exact decide_eq_false (fun hcon => hxe ((Option.some.inj hcon).symm))

theorem foldScatter_at (rows : List FifoRow) (e : ℤ) (eps tol : ℚ) (j : ℕ)
    (hmask : episodeMask rows e j = true) :
    ∀ (ids : List ℤ) (acc : List (Option ℚ)),
      acc.length = rows.length →
      ((ids.foldl (fun acc eid =>
        scatterWaits eid rows acc (segWaits rows eid eps tol)) acc)).getD j none =
        if e ∈ ids then
          (segWaits rows e eps tol).getD
            (((rows.take j).filter (fifoMatch e)).length) none
        else acc.getD j none := by
  intro ids
  induction ids with
  | nil => intro acc _; simp
  | cons eid rest ih =>
    intro acc hlen
    rw [List.foldl_cons]
    have hlen' : (scatterWaits eid rows acc (segWaits rows eid eps tol)).length =
        rows.length := by rw [scatterWaits_length]; exact hlen
    by_cases he : eid = e
    · subst he
      by_cases hmem : eid ∈ rest
      · rw [ih _ hlen', if_pos hmem, if_pos (List.mem_cons_self _ _)]
      · have hall : ∀ x ∈ rest,
            fifoMatch x (rows.getD j ⟨0, 0, none, false⟩) = false := by
          intro x hx
          exact fifoMatch_ne hmask (fun hcon => hmem (hcon ▸ hx))
        rw [foldScatter_preserve rows eps tol j rest _ hall,
          if_pos (List.mem_cons_self _ _)]
        exact scatterWaits_write eid rows acc _ j hlen hmask
    · have hmaskne : fifoMatch eid (rows.getD j ⟨0, 0, none, false⟩) = false :=
        fifoMatch_ne hmask he
      rw [ih _ hlen', scatterWaits_preserve eid rows acc _ j hmaskne]
      by_cases hmem : e ∈ rest
      · rw [if_pos hmem, if_pos (List.mem_cons_of_mem _ hmem)]
      · rw [if_neg hmem, if_neg (by
          intro hcon
          rcases List.mem_cons.mp hcon with h1 | h1
          · exact he h1.symm
          · exact hmem h1)]

theorem uniqueKeepOrder_mem (l : List ℤ) (x : ℤ) :
    x ∈ uniqueKeepOrder l ↔ x ∈ l := by
  cases l with
  | nil => simp [uniqueKeepOrder]
  | cons a xs =>
    rw [uniqueKeepOrder]
    rw [List.mem_cons, List.mem_cons,
      uniqueKeepOrder_mem (xs.filter (fun y => decide (y ≠ a))) x]
    constructor
    · rintro (h | h)
      · exact Or.inl h
      · exact Or.inr (List.mem_of_mem_filter h)
    · rintro (h | h)
      · exact Or.inl h
      · by_cases hxa : x = a
        · exact Or.inl hxa
        · exact Or.inr (List.mem_filter.mpr ⟨h, by simpa using hxa⟩)
termination_by l.length
decreasing_by
  exact Nat.lt_succ_of_le (List.length_filter_le _ _)

theorem episodeMask_lt_length {rows : List FifoRow} {e : ℤ} {j : ℕ}
    (hmask : episodeMask rows e j = true) : j < rows.length := by
  by_contra hcon
  rw [episodeMask, List.getD_eq_default _ _ (by omega)] at hmask
  simp [fifoMatch] at hmask

theorem episodeMask_mem_ids {rows : List FifoRow} {e : ℤ} {j : ℕ}
    (hmask : episodeMask rows e j = true) : e ∈ episodeIdsOf rows := by
  have hj := episodeMask_lt_length hmask
  rw [episodeMask, fifoMatch, Bool.and_eq_true] at hmask
  obtain ⟨h1, h2⟩ := hmask
  have hid : (rows.getD j ⟨0, 0, none, false⟩).episode_id = some e :=
    of_decide_eq_true h2
  rw [episodeIdsOf, uniqueKeepOrder_mem]
  apply List.mem_filterMap.mpr
  refine ⟨rows.getD j ⟨0, 0, none, false⟩, ?_, hid⟩
  apply List.mem_filter.mpr
  refine ⟨?_, h1⟩
  rw [List.getD_eq_getElem _ _ hj]
  exact List.getElem_mem _

/-! ## Lemmas: the minute-flow builder -/

theorem foldl_min_mem : ∀ (l : List ℤ) (a : ℤ), l.foldl min a ∈ a :: l := by
  intro l
  induction l with
  | nil => intro a; simp
  | cons b t ih =>
    intro a
    rw [List.foldl_cons]
    rcases List.mem_cons.mp (ih (min a b)) with h | h
    · rw [h]
      rcases min_choice a b with hc | hc <;> rw [hc] <;> simp
    · exact List.mem_cons.mpr (Or.inr (List.mem_cons.mpr (Or.inr h)))

theorem foldl_min_le : ∀ (l : List ℤ) (a x : ℤ), x ∈ a :: l → l.foldl min a ≤ x := by
  intro l
  induction l with
  | nil =>
    intro a x hx
    rw [List.foldl_nil]
    rcases List.mem_cons.mp hx with h | h
    · omega
    · simp at h
  | cons b t ih =>
    intro a x hx
    rw [List.foldl_cons]
    rcases List.mem_cons.mp hx with h | h
    · subst h
      exact le_trans (ih (min x b) (min x b) (List.mem_cons_self _ _))
        (min_le_left _ _)
    · rcases List.mem_cons.mp h with h1 | h1
      · subst h1
        exact le_trans (ih (min a x) (min a x) (List.mem_cons_self _ _))
          (min_le_right _ _)
      · exact ih (min a b) x (List.mem_cons_of_mem _ h1)

theorem foldl_max_mem : ∀ (l : List ℤ) (a : ℤ), l.foldl max a ∈ a :: l := by
  intro l
  induction l with
  | nil => intro a; simp
  | cons b t ih =>
    intro a
    rw [List.foldl_cons]
    rcases List.mem_cons.mp (ih (max a b)) with h | h
    · rw [h]
      rcases max_choice a b with hc | hc <;> rw [hc] <;> simp
    · exact List.mem_cons.mpr (Or.inr (List.mem_cons.mpr (Or.inr h)))

theorem foldl_max_ge : ∀ (l : List ℤ) (a x : ℤ), x ∈ a :: l → x ≤ l.foldl max a := by
  intro l
  induction l with
  | nil =>
    intro a x hx
    rw [List.foldl_nil]
    rcases List.mem_cons.mp hx with h | h
    · omega
    · simp at h
  | cons b t ih =>
    intro a x hx
    rw [List.foldl_cons]
    rcases List.mem_cons.mp hx with h | h
    · subst h
      exact le_trans (le_max_left x b)
        (ih (max x b) (max x b) (List.mem_cons_self _ _))
    · rcases List.mem_cons.mp h with h1 | h1
      · subst h1
        exact le_trans (le_max_right a x)
          (ih (max a x) (max a x) (List.mem_cons_self _ _))
      · exact ih (max a b) x (List.mem_cons_of_mem _ h1)

theorem listMin_spec {l : List ℤ} (hl : l ≠ []) :
    listMin l ∈ l ∧ ∀ x ∈ l, listMin l ≤ x := by
  cases l with
  | nil => exact absurd rfl hl
  | cons a t =>
    constructor
    · show (a :: t).foldl min a ∈ a :: t
      rcases List.mem_cons.mp (foldl_min_mem (a :: t) a) with h | h
      · rw [h]; simp
      · exact h
    · intro x hx
      show (a :: t).foldl min a ≤ x
      exact foldl_min_le (a :: t) a x (List.mem_cons_of_mem _ hx)

theorem listMax_spec {l : List ℤ} (hl : l ≠ []) :
    listMax l ∈ l ∧ ∀ x ∈ l, x ≤ listMax l := by
  cases l with
  | nil => exact absurd rfl hl
  | cons a t =>
    constructor
    · show (a :: t).foldl max a ∈ a :: t
      rcases List.mem_cons.mp (foldl_max_mem (a :: t) a) with h | h
      · rw [h]; simp
      · exact h
    · intro x hx
      show x ≤ (a :: t).foldl max a
      exact foldl_max_ge (a :: t) a x (List.mem_cons_of_mem _ hx)

theorem floorMinute_mono {a b : ℤ} (h : a ≤ b) : floorMinute a ≤ floorMinute b :=
  Int.ediv_le_ediv (by norm_num) h

theorem listMin_map_floor {l : List ℤ} (hl : l ≠ []) :
    listMin (l.map floorMinute) = floorMinute (listMin l) := by
  have hml : l.map floorMinute ≠ [] := by
    intro hcon
    exact hl (List.map_eq_nil.mp hcon)
  obtain ⟨hmem, hle⟩ := listMin_spec hml
  obtain ⟨hmem', hle'⟩ := listMin_spec hl
  apply le_antisymm
  · exact hle _ (List.mem_map_of_mem _ hmem')
  · obtain ⟨x, hx, hfx⟩ := List.mem_map.mp hmem
    rw [← hfx]
    exact floorMinute_mono (hle' x hx)

theorem listMax_map_floor {l : List ℤ} (hl : l ≠ []) :
    listMax (l.map floorMinute) = floorMinute (listMax l) := by
  have hml : l.map floorMinute ≠ [] := by
    intro hcon
    exact hl (List.map_eq_nil.mp hcon)
  obtain ⟨hmem, hle⟩ := listMax_spec hml
  obtain ⟨hmem', hle'⟩ := listMax_spec hl
  apply le_antisymm
  · obtain ⟨x, hx, hfx⟩ := List.mem_map.mp hmem
    rw [← hfx]
    exact floorMinute_mono (hle' x hx)
  · exact hle _ (List.mem_map_of_mem _ hmem')

theorem intRange_length (a b : ℤ) : (intRange a b).length = (b - a + 1).toNat := by
  simp [intRange]

theorem intRange_getD (a b : ℤ) (j : ℕ) (hj : j < (b - a + 1).toNat) :
    (intRange a b).getD j 0 = a + (j : ℤ) := by
  have hj' : j < (intRange a b).length := by rwa [intRange_length]
  rw [List.getD_eq_getElem _ _ hj']
  simp [intRange]

/-! ## Lemmas: the object store -/

theorem Heap.read_alloc_lt {h : Heap} {v : PdObj} {r : ℕ}
    (hr : r < h.cells.length) : ((h.alloc v).1).read r = h.read r := by
  rw [Heap.read, Heap.read, Heap.alloc]
  exact List.get?_append hr

theorem Heap.read_write_ne {h : Heap} {r r' : ℕ} {v : PdObj}
    (hne : r ≠ r') : (h.write r' v).read r = h.read r := by
  rw [Heap.read, Heap.read, Heap.write]
  rw [List.get?_eq_getElem?, List.get?_eq_getElem?]
  exact List.getElem?_set_ne (fun hcon => hne hcon.symm)

theorem Heap.alloc_length (h : Heap) (v : PdObj) :
    ((h.alloc v).1).cells.length = h.cells.length + 1 := by
  simp [Heap.alloc]

theorem Heap.alloc_handle (h : Heap) (v : PdObj) :
    (h.alloc v).2 = h.cells.length := rfl

theorem Heap.write_length (h : Heap) (r : ℕ) (v : PdObj) :
    (h.write r v).cells.length = h.cells.length := by
  simp [Heap.write]

theorem Heap.read_some_lt {h : Heap} {r : ℕ} {v : PdObj}
    (hv : h.read r = some v) : r < h.cells.length := by
  by_contra hcon
  rw [Heap.read, List.get?_eq_getElem?, List.getElem?_eq_none (by omega)] at hv
  cases hv

theorem detect_st_facts (h : Heap) (df : ℕ) (cfg : EpisodeDetectConfig) :
    h.cells.length ≤ ((detect_queue_episodes_st h df cfg).1).cells.length ∧
      ∀ r, r < h.cells.length →
        ((detect_queue_episodes_st h df cfg).1).read r = h.read r := by
  rw [detect_queue_episodes_st]
  cases hread : h.read df with
  | none => exact ⟨le_rfl, fun r _ => rfl⟩
  | some obj =>
    cases obj with
    | mdf d =>
      dsimp only
      by_cases hm : (missingMinuteCols d).isEmpty = true
      · rw [if_pos hm]
        refine ⟨by rw [Heap.alloc_length]; omega, fun r hr => ?_⟩
        exact Heap.read_alloc_lt hr
      · rw [if_neg hm]
        exact ⟨le_rfl, fun r _ => rfl⟩
    | rdf x => exact ⟨le_rfl, fun r _ => rfl⟩
    | odf x => exact ⟨le_rfl, fun r _ => rfl⟩
    | edf x => exact ⟨le_rfl, fun r _ => rfl⟩
    | fdf x => exact ⟨le_rfl, fun r _ => rfl⟩
    | fdfw x w => exact ⟨le_rfl, fun r _ => rfl⟩

theorem reconcile_st_facts (solver : QpSolver) (h : Heap) (df : ℕ)
    (cfg : ReconcileConfig) :
    h.cells.length ≤ ((reconcile_minute_flows_st solver h df cfg).1).cells.length ∧
      ∀ r, r < h.cells.length →
        ((reconcile_minute_flows_st solver h df cfg).1).read r = h.read r := by
  rw [reconcile_minute_flows_st]
  cases hread : h.read df with
  | none => exact ⟨le_rfl, fun r _ => rfl⟩
  | some obj =>
    cases obj with
    | mdf d =>
      dsimp only
      by_cases hm : (missingMinuteCols d).isEmpty = true
      · rw [if_pos hm]
        cases hrec : reconcile_minute_flows solver d cfg with
        | ok rows =>
          refine ⟨?_, fun r hr => ?_⟩
          · simp only [Heap.alloc_length]; omega
          · rw [Heap.read_alloc_lt (by simp only [Heap.alloc_length]; omega),
              Heap.read_alloc_lt (by simp only [Heap.alloc_length]; omega),
              Heap.read_alloc_lt hr]
        | error e =>
          refine ⟨?_, fun r hr => ?_⟩
          · simp only [Heap.alloc_length]; omega
          · rw [Heap.read_alloc_lt (by simp only [Heap.alloc_length]; omega),
              Heap.read_alloc_lt hr]
      · rw [if_neg hm]
        exact ⟨le_rfl, fun r _ => rfl⟩
    | rdf x => exact ⟨le_rfl, fun r _ => rfl⟩
    | odf x => exact ⟨le_rfl, fun r _ => rfl⟩
    | edf x => exact ⟨le_rfl, fun r _ => rfl⟩
    | fdf x => exact ⟨le_rfl, fun r _ => rfl⟩
    | fdfw x w => exact ⟨le_rfl, fun r _ => rfl⟩

theorem applyEpisodes_st_facts (solver : QpSolver) (rcfg : ReconcileConfig)
    (work : List MinuteRow) :
    ∀ (eps : List EpisodeRow) (h : Heap) (outH : ℕ) (out : List ReconRow),
      h.cells.length ≤
          ((applyEpisodes_st solver rcfg work eps h outH out).1).cells.length ∧
        ∀ r, r < h.cells.length → r ≠ outH →
          ((applyEpisodes_st solver rcfg work eps h outH out).1).read r =
            h.read r := by
  intro eps
  induction eps with
  | nil => intro h outH out; exact ⟨le_rfl, fun r _ _ => rfl⟩
  | cons ep rest ih =>
    intro h outH out
    rw [applyEpisodes_st]
    set a1 := h.alloc (PdObj.mdf ⟨["minute_start_utc", "in_count", "out_count"],
      sliceRows work ep.start_idx ep.end_idx⟩) with ha1
    set rr := reconcile_minute_flows_st solver a1.1 a1.2 rcfg with hrr
    obtain ⟨hrl, hrp⟩ := reconcile_st_facts solver a1.1 a1.2 rcfg
    rw [← hrr] at hrl hrp
    have ha1len : a1.1.cells.length = h.cells.length + 1 := by
      rw [ha1]; exact Heap.alloc_length h _
    cases hres : rr.2 with
    | error e =>
      dsimp only
      refine ⟨by omega, fun r hr hro => ?_⟩
      rw [hrp r (by omega), ha1, Heap.read_alloc_lt hr]
    | ok rec =>
      dsimp only
      obtain ⟨hal, hap⟩ := ih (rr.1.write outH (PdObj.odf (writeEpisode out ep rec)))
        outH (writeEpisode out ep rec)
      have hwlen : (rr.1.write outH
          (PdObj.odf (writeEpisode out ep rec))).cells.length =
          rr.1.cells.length := Heap.write_length _ _ _
      refine ⟨by omega, fun r hr hro => ?_⟩
      rw [hap r (by omega) hro, Heap.read_write_ne hro,
        hrp r (by omega), ha1, Heap.read_alloc_lt hr]

theorem by_episodes_st_preserves (solver : QpSolver) (h : Heap) (df : ℕ)
    (rcfg : ReconcileConfig) (ecfg : EpisodeDetectConfig) :
    ((reconcile_by_episodes_st solver h df rcfg ecfg).1).read df = h.read df := by
  rw [reconcile_by_episodes_st]
  cases hread : h.read df with
  | none => exact hread
  | some obj =>
    cases obj with
    | mdf d =>
      dsimp only
      have hdf := Heap.read_some_lt hread
      set aw := h.alloc (PdObj.mdf ⟨d.cols, sortByMinute d.rows⟩) with haw
      have hawlen : aw.1.cells.length = h.cells.length + 1 := by
        rw [haw]; exact Heap.alloc_length h _
      have hawread : aw.1.read df = h.read df := by
        rw [haw]; exact Heap.read_alloc_lt hdf
      by_cases hm : (missingMinuteCols d).isEmpty = true
      · rw [if_pos hm]
        set out0 := (sortByMinute d.rows).map (fun r =>
          (⟨r.minute_start_utc, r.in_count, r.out_count, r.in_count, r.out_count,
            0, none, false⟩ : ReconRow)) with hout0
        set ao := aw.1.alloc (PdObj.odf out0) with hao
        have haolen : ao.1.cells.length = h.cells.length + 2 := by
          rw [hao, Heap.alloc_length, hawlen]
        have haoh : ao.2 = h.cells.length + 1 := by
          rw [hao, Heap.alloc_handle, hawlen]
        have haoread : ao.1.read df = h.read df := by
          rw [hao, Heap.read_alloc_lt (by omega), hawread]
        obtain ⟨hdl, hdp⟩ := detect_st_facts ao.1 aw.2 ecfg
        set dres := detect_queue_episodes_st ao.1 aw.2 ecfg with hdres
        have hdread : dres.1.read df = h.read df := by
          rw [hdp df (by omega), haoread]
        cases hres : dres.2 with
        | error e =>
          dsimp only
          exact hdread.trans hread
        | ok eps =>
          dsimp only
          by_cases hemp : eps.isEmpty = true
          · rw [if_pos hemp]
            exact hdread.trans hread
          · rw [if_neg hemp]
            obtain ⟨hal, hap⟩ := applyEpisodes_st_facts solver rcfg
              (sortByMinute d.rows) eps dres.1 ao.2 out0
            rw [hap df (by omega) (by omega)]
            exact hdread.trans hread
      · rw [if_neg hm]
        exact hawread.trans hread
    | rdf x => exact hread
    | odf x => exact hread
    | edf x => exact hread
    | fdf x => exact hread
    | fdfw x w => exact hread

theorem fifoFold_read (d : FifoDf) (eps tol : ℚ) (a r : ℕ) (hra : r ≠ a) :
    ∀ (ids : List ℤ) (st : Heap × List (Option ℚ)),
      ((ids.foldl (fun st eid =>
        (st.1.write a (PdObj.fdfw d
          (scatterWaits eid d.rows st.2 (segWaits d.rows eid eps tol))),
         scatterWaits eid d.rows st.2 (segWaits d.rows eid eps tol))) st).1).read r
        = st.1.read r := by
  intro ids
  induction ids with
  | nil => intro st; rfl
  | cons eid rest ih =>
    intro st
    rw [List.foldl_cons, ih]
    exact Heap.read_write_ne hra

theorem fifo_st_preserves (h : Heap) (df : ℕ) (eps tol : ℚ) :
    ((add_fifo_wait_columns_st h df eps tol).1).read df = h.read df := by
  rw [add_fifo_wait_columns_st]
  cases hread : h.read df with
  | none => exact hread
  | some obj =>
    cases obj with
    | mdf x => exact hread
    | rdf x => exact hread
    | odf x => exact hread
    | edf x => exact hread
    | fdfw x w => exact hread
    | fdf d =>
      dsimp only
      have hdf := Heap.read_some_lt hread
      set a1 := h.alloc (PdObj.fdf d) with ha1
      have ha1len : a1.1.cells.length = h.cells.length + 1 := by
        rw [ha1]; exact Heap.alloc_length h _
      have ha1h : a1.2 = h.cells.length := by rw [ha1]; rfl
      have hne : df ≠ a1.2 := by omega
      have ha1read : a1.1.read df = h.read df := by
        rw [ha1]; exact Heap.read_alloc_lt hdf
      by_cases hm : ((["in_count_corrected", "out_count_corrected"]).filter
          (fun c => decide (c ∉ d.cols))).isEmpty = true
      · rw [if_pos hm]
        by_cases hec : "episode_id" ∈ d.cols ∧ "in_episode" ∈ d.cols
        · rw [if_pos hec]
          by_cases hids : (episodeIdsOf d.rows).isEmpty = true
          · rw [if_pos hids]
            dsimp only
            rw [Heap.read_write_ne hne, Heap.read_write_ne hne, ha1read]
            exact hread
          · rw [if_neg hids]
            dsimp only
            rw [fifoFold_read d eps tol a1.2 df hne, Heap.read_write_ne hne,
              ha1read]
            exact hread
        · rw [if_neg hec]
          dsimp only
          rw [Heap.read_write_ne hne, Heap.read_write_ne hne, ha1read]
          exact hread
      · rw [if_neg hm]
        exact hread

theorem count_map_floor (l : List ℤ) (m : ℤ) :
    (l.map floorMinute).count m =
      (l.filter (fun t => decide (floorMinute t = m))).length := by
  induction l with
  | nil => simp
  | cons a t ih =>
    simp only [List.map_cons, List.count_cons, List.filter_cons]
    by_cases h : floorMinute a = m
    · simp [h, ih]
    · simp [h, ih]

theorem mkTsDf_col (l : List (Option ℤ)) : (mkTsDf l).col "timestamp" = l := by
  simp [mkTsDf]

theorem isEmpty_congr_perm {α : Type} {l l' : List α} (h : l.Perm l') :
    l.isEmpty = l'.isEmpty := by
  cases hl : l with
  | nil =>
    rw [hl] at h
    rw [h.symm.eq_nil]
  | cons a t =>
    cases hl' : l' with
    | nil =>
      rw [hl, hl'] at h
      exact absurd h.eq_nil (by simp)
    | cons b t' => rfl

theorem listMin_congr_perm {l l' : List ℤ} (h : l.Perm l') (hne : l ≠ []) :
    listMin l = listMin l' := by
  have hne' : l' ≠ [] := fun hcon => hne (List.Perm.eq_nil (hcon ▸ h))
  obtain ⟨hm, hle⟩ := listMin_spec hne
  obtain ⟨hm', hle'⟩ := listMin_spec hne'
  exact le_antisymm (hle _ (h.mem_iff.mpr hm')) (hle' _ (h.mem_iff.mp hm))

theorem listMax_congr_perm {l l' : List ℤ} (h : l.Perm l') (hne : l ≠ []) :
    listMax l = listMax l' := by
  have hne' : l' ≠ [] := fun hcon => hne (List.Perm.eq_nil (hcon ▸ h))
  obtain ⟨hm, hle⟩ := listMax_spec hne
  obtain ⟨hm', hle'⟩ := listMax_spec hne'
  exact le_antisymm (hle' _ (h.mem_iff.mp hm)) (hle _ (h.mem_iff.mpr hm'))

theorem build_eq (ins outs : List (Option ℤ)) :
    build_minute_flows (mkTsDf ins) (mkTsDf outs) {} =
      (if (ins.filterMap id).isEmpty = true ∧ (outs.filterMap id).isEmpty = true
      then Except.ok ⟨["minute_start_utc", "in_count", "out_count"], []⟩
      else
        Except.ok ⟨["minute_start_utc", "in_count", "out_count"],
          (intRange
              (listMin ((ins.filterMap id ++ outs.filterMap id).map floorMinute))
              (listMax ((ins.filterMap id ++ outs.filterMap id).map floorMinute))).map
            (fun m =>
              ⟨60 * m, ((((ins.filterMap id).map floorMinute).count m : ℕ) : ℚ),
                ((((outs.filterMap id).map floorMinute).count m : ℕ) : ℚ)⟩)⟩) := by
  rw [build_minute_flows]
  rw [if_neg (by simp [mkTsDf]), if_neg (by simp [mkTsDf])]
  rw [mkTsDf_col, mkTsDf_col]

theorem build_congr {ins ins' outs outs' : List (Option ℤ)}
    (h1 : ins.filterMap id = ins'.filterMap id)
    (h2 : outs.filterMap id = outs'.filterMap id) :
    build_minute_flows (mkTsDf ins) (mkTsDf outs) {} =
      build_minute_flows (mkTsDf ins') (mkTsDf outs') {} := by
  rw [build_eq, build_eq, h1, h2]

theorem build_perm {ins ins' outs outs' : List (Option ℤ)}
    (hp1 : ins.Perm ins') (hp2 : outs.Perm outs') :
    build_minute_flows (mkTsDf ins) (mkTsDf outs) {} =
      build_minute_flows (mkTsDf ins') (mkTsDf outs') {} := by
  have hpi : (ins.filterMap id).Perm (ins'.filterMap id) := hp1.filterMap id
  have hpo : (outs.filterMap id).Perm (outs'.filterMap id) := hp2.filterMap id
  rw [build_eq, build_eq]
  rw [isEmpty_congr_perm hpi, isEmpty_congr_perm hpo]
  by_cases hcond : (ins'.filterMap id).isEmpty = true ∧
      (outs'.filterMap id).isEmpty = true
  · rw [if_pos hcond, if_pos hcond]
  · rw [if_neg hcond, if_neg hcond]
    have hpall : ((ins.filterMap id ++ outs.filterMap id).map floorMinute).Perm
        ((ins'.filterMap id ++ outs'.filterMap id).map floorMinute) :=
      (hpi.append hpo).map floorMinute
    have hne : (ins.filterMap id ++ outs.filterMap id).map floorMinute ≠ [] := by
      intro hcon
      rcases List.map_eq_nil_iff.mp hcon with hcon2
      rcases List.append_eq_nil.mp hcon2 with ⟨ha, hb⟩
      exact hcond ⟨by rw [← isEmpty_congr_perm hpi, ha]; rfl,
        by rw [← isEmpty_congr_perm hpo, hb]; rfl⟩
    rw [listMin_congr_perm hpall hne, listMax_congr_perm hpall hne]
    congr 1
    refine congrArg _ ?_
    apply List.map_congr_left
    intro m _
    rw [(hp1.filterMap id |>.map floorMinute).count_eq,
      (hp2.filterMap id |>.map floorMinute).count_eq]

end KffV2

namespace KffV2


/-! ## Claim theorems -/

theorem getD_map_max_nonneg (l : List ℚ) (k : ℕ) :
    0 ≤ (l.map (fun x => max x 0)).getD k 0 := by
  by_cases hk : k < l.length
  · rw [List.getD_eq_getElem _ _ (by simpa using hk)]
    simp
  · rw [List.getD_eq_default _ _ (by simpa using hk)]

/-- C6: `detect_queue_episodes` implements exactly the spec's pipeline:
threshold the per-minute activity, bridge every maximal interior inactive
run of length at most `max_gap_minutes` whose two neighbours are active,
enumerate the maximal active runs of the bridged vector, discard runs
shorter than `min_active_minutes`, expand the survivors by
`buffer_minutes` clamped to `[0, n-1]`, discard expanded runs shorter
than `min_episode_minutes`, and emit the rest in order. -/
theorem c6_detection_algorithm (df : MinuteDf) (cfg : EpisodeDetectConfig) :
    detect_queue_episodes df cfg = spec_detect_queue_episodes df cfg :=
  detect_eq_spec df cfg

/-- C10: none of the four core functions mutates its input DataFrame:
in the heap translation, the cell holding the input object reads back
unchanged after each call. -/
theorem c10_no_input_mutation (solver : QpSolver) (h : Heap) (df : ℕ)
    (ecfg : EpisodeDetectConfig) (rcfg : ReconcileConfig) (eps tol : ℚ) :
    ((detect_queue_episodes_st h df ecfg).1).read df = h.read df ∧
    ((reconcile_minute_flows_st solver h df rcfg).1).read df = h.read df ∧
    ((reconcile_by_episodes_st solver h df rcfg ecfg).1).read df = h.read df ∧
    ((add_fifo_wait_columns_st h df eps tol).1).read df = h.read df := by
  refine ⟨?_, ?_, by_episodes_st_preserves solver h df rcfg ecfg,
    fifo_st_preserves h df eps tol⟩
  · cases hread : h.read df with
    | none =>
      rw [detect_queue_episodes_st, hread]
      exact hread
    | some obj =>
      cases obj with
      | mdf d =>
        exact ((detect_st_facts h df ecfg).2 df (Heap.read_some_lt hread)).trans
          hread
      | rdf x =>
        rw [detect_queue_episodes_st, hread]
        exact hread
      | odf x =>
        rw [detect_queue_episodes_st, hread]
        exact hread
      | edf x =>
        rw [detect_queue_episodes_st, hread]
        exact hread
      | fdf x =>
        rw [detect_queue_episodes_st, hread]
        exact hread
      | fdfw x w =>
        rw [detect_queue_episodes_st, hread]
        exact hread
  · cases hread : h.read df with
    | none =>
      rw [reconcile_minute_flows_st, hread]
      exact hread
    | some obj =>
      cases obj with
      | mdf d =>
        exact ((reconcile_st_facts solver h df rcfg).2 df
          (Heap.read_some_lt hread)).trans hread
      | rdf x =>
        rw [reconcile_minute_flows_st, hread]
        exact hread
      | odf x =>
        rw [reconcile_minute_flows_st, hread]
        exact hread
      | edf x =>
        rw [reconcile_minute_flows_st, hread]
        exact hread
      | fdf x =>
        rw [reconcile_minute_flows_st, hread]
        exact hread
      | fdfw x w =>
        rw [reconcile_minute_flows_st, hread]
        exact hread

/-- C4 (counterexample): with `nonnegative_flows := false` and an accepted
solver status, a negative corrected inflow passes through unclamped: the
claim's unconditional `i_k ≥ 0` fails. -/
theorem c4_counterexample :
    reconcile_minute_flows (constSolver "optimal" (-1) 0 0)
        ⟨["minute_start_utc", "in_count", "out_count"], [⟨0, 0, 2⟩]⟩
        { nonnegative_flows := false } =
      Except.ok [⟨0, 0, 2, -1, 0, 0⟩] ∧
    ((-1 : ℚ) < 0) := by
  constructor
  · norm_num [reconcile_minute_flows, missingMinuteCols, sortByMinute,
      List.insertionSort, constSolver, List.range_succ]
  · norm_num

/-- C4 (corrected): after an accepted solve, the occupancy series is
clamped at zero unconditionally, but the corrected inflow and outflow are
clamped only when `cfg.nonnegative_flows` is set. -/
theorem c4_post_solve_clamping (solver : QpSolver) (df : MinuteDf)
    (cfg : ReconcileConfig) (out : List RecRow)
    (hok : reconcile_minute_flows solver df cfg = Except.ok out) :
    (∀ r ∈ out, 0 ≤ r.occupancy_corrected_end) ∧
    (cfg.nonnegative_flows = true →
      ∀ r ∈ out, 0 ≤ r.in_count_corrected ∧ 0 ≤ r.out_count_corrected) := by
  simp only [reconcile_minute_flows] at hok
  split at hok
  · split at hok
    · cases hok
      simp
    · split at hok
      · cases hok
        constructor
        · intro r hr
          obtain ⟨k, hk, rfl⟩ := List.mem_map.mp hr
          exact getD_map_max_nonneg _ _
        · intro hnn r hr
          obtain ⟨k, hk, rfl⟩ := List.mem_map.mp hr
          simp only [hnn, if_true]
          exact ⟨getD_map_max_nonneg _ _, getD_map_max_nonneg _ _⟩
      · cases hok
  · cases hok

/-- C4 (witness): the corrected theorem applied to a one-row table and a
solver answering `-1, -2, -3`; with the default configuration all three
series are clamped to zero. -/
theorem c4_witness :
    (∀ r ∈ [(⟨0, 0, 2, 0, 0, 0⟩ : RecRow)], 0 ≤ r.occupancy_corrected_end) ∧
    ((ReconcileConfig.nonnegative_flows {} = true) →
      ∀ r ∈ [(⟨0, 0, 2, 0, 0, 0⟩ : RecRow)],
        0 ≤ r.in_count_corrected ∧ 0 ≤ r.out_count_corrected) :=
  c4_post_solve_clamping (constSolver "optimal" (-1) (-2) (-3))
    ⟨["minute_start_utc", "in_count", "out_count"], [⟨0, 0, 2⟩]⟩ {}
    [⟨0, 0, 2, 0, 0, 0⟩]
    (by norm_num [reconcile_minute_flows, missingMinuteCols, sortByMinute,
      List.insertionSort, constSolver, List.range_succ])

/-- C5 (counterexample): out-of-range configuration values produce no
configuration error: a negative `active_threshold` with non-positive
minimum lengths is accepted by the detector, and negative weights are
accepted by the reconciler, which still invokes the solver. -/
theorem c5_counterexample :
    detect_queue_episodes
        ⟨["minute_start_utc", "in_count", "out_count"], [⟨0, 1, 0⟩]⟩
        ⟨-1, 0, 10, 0, 10⟩ = Except.ok [⟨1, 0, 0, 0, 0, 1⟩] ∧
    reconcile_minute_flows (constSolver "optimal" 0 0 0)
        ⟨["minute_start_utc", "in_count", "out_count"], [⟨0, 1, 0⟩]⟩
        { w_in := -1, w_out := -1 } = Except.ok [⟨0, 1, 0, 0, 0, 0⟩] := by
  constructor
  · norm_num [detect_queue_episodes, missingMinuteCols, sortByMinute,
      List.insertionSort, activeList, bridgeGaps, flatnonzero,
      flatnonzeroFrom, groupRuns, groupRunsAux, emitEpisodes]
  · norm_num [reconcile_minute_flows, missingMinuteCols, sortByMinute,
      List.insertionSort, constSolver, List.range_succ]

/-- C5 (corrected): neither function validates its configuration.  Given
the required columns the detector succeeds for every configuration, and
every error the reconciler raises is either a missing-column error or the
status reported by the QP solver after it has been called — never a
configuration error raised before the solve. -/
theorem c5_no_configuration_validation :
    (∀ (df : MinuteDf) (cfg : EpisodeDetectConfig),
      (missingMinuteCols df).isEmpty = true →
      ∃ eps, detect_queue_episodes df cfg = Except.ok eps) ∧
    (∀ (solver : QpSolver) (df : MinuteDf) (cfg : ReconcileConfig)
      (e : PipeError),
      reconcile_minute_flows solver df cfg = Except.error e →
      (∃ cols, e = PipeError.missingColumns cols) ∨
      (∃ s, s = (solver cfg
          ((sortByMinute df.rows).map (fun r => r.in_count))
          ((sortByMinute df.rows).map (fun r => r.out_count))).status ∧
        e = PipeError.solverError s)) := by
  constructor
  · intro df cfg hm
    simp only [detect_queue_episodes, hm, if_true]
    split
    · exact ⟨[], rfl⟩
    · exact ⟨_, rfl⟩
  · intro solver df cfg e herr
    simp only [reconcile_minute_flows] at herr
    split at herr
    · split at herr
      · cases herr
      · split at herr
        · cases herr
        · cases herr
          exact Or.inr ⟨_, rfl, rfl⟩
    · cases herr
      exact Or.inl ⟨_, rfl⟩

/-- C5 (witness): the corrected theorem applied to a one-row table with an
out-of-range detector configuration and to a solver that reports
`infeasible`. -/
theorem c5_witness :
    (∃ eps, detect_queue_episodes
        ⟨["minute_start_utc", "in_count", "out_count"], [⟨0, 1, 0⟩]⟩
        ⟨-1, 0, 10, 0, 10⟩ = Except.ok eps) ∧
    ((∃ cols, PipeError.solverError "infeasible" =
        PipeError.missingColumns cols) ∨
      (∃ s, s = (constSolver "infeasible" 0 0 0 { w_in := -1 }
          ((sortByMinute [(⟨0, 1, 0⟩ : MinuteRow)]).map (fun r => r.in_count))
          ((sortByMinute [(⟨0, 1, 0⟩ : MinuteRow)]).map
            (fun r => r.out_count))).status ∧
        PipeError.solverError "infeasible" = PipeError.solverError s)) :=
  ⟨c5_no_configuration_validation.1
      ⟨["minute_start_utc", "in_count", "out_count"], [⟨0, 1, 0⟩]⟩
      ⟨-1, 0, 10, 0, 10⟩ (by norm_num [missingMinuteCols]),
    c5_no_configuration_validation.2 (constSolver "infeasible" 0 0 0)
      ⟨["minute_start_utc", "in_count", "out_count"], [⟨0, 1, 0⟩]⟩
      { w_in := -1 } (PipeError.solverError "infeasible")
      (by
        norm_num [reconcile_minute_flows, missingMinuteCols, sortByMinute,
          List.insertionSort, constSolver]
        intro hcon
        rcases hcon with hcon | hcon <;> exact absurd hcon (by decide))⟩


/-- C3 (counterexample): with `buffer_minutes = 2` and permissive length
thresholds, two active runs two minutes apart yield buffered episodes
`[0, 2]` and `[1, 4]`, which share indices 1 and 2: detected episodes are
not pairwise disjoint. -/
theorem c3_counterexample :
    detect_queue_episodes
        ⟨["minute_start_utc", "in_count", "out_count"],
          [⟨0, 1, 0⟩, ⟨60, 0, 0⟩, ⟨120, 0, 0⟩, ⟨180, 1, 0⟩, ⟨240, 1, 0⟩]⟩
        ⟨1, 1, 0, 1, 2⟩ =
      Except.ok [⟨1, 0, 2, 0, 120, 3⟩, ⟨2, 1, 4, 60, 240, 4⟩] ∧
    ¬ EpisodesDisjoint [⟨1, 0, 2, 0, 120, 3⟩, ⟨2, 1, 4, 60, 240, 4⟩] := by
  constructor
  · norm_num [detect_queue_episodes, missingMinuteCols, sortByMinute,
      List.insertionSort, List.orderedInsert, activeList, bridgeGaps,
      flatnonzero, flatnonzeroFrom, groupRuns, groupRunsAux, emitEpisodes]
    exact ⟨rfl, rfl⟩
  · rw [EpisodesDisjoint]
    decide

/-- C3 (corrected): the episodes returned by `detect_queue_episodes` carry
1-based identifiers assigned in order and are sorted by nondecreasing
start and end index; but their buffered `[start_idx, end_idx]` windows
need not be pairwise disjoint. -/
theorem c3_episode_ordering (df : MinuteDf) (cfg : EpisodeDetectConfig)
    (eps : List EpisodeRow)
    (hok : detect_queue_episodes df cfg = Except.ok eps) :
    eps.map (fun ep => ep.episode_id) = List.range' 1 eps.length ∧
    eps.Pairwise (fun a b => a.start_idx ≤ b.start_idx ∧
      a.end_idx ≤ b.end_idx) := by
  simp only [detect_queue_episodes] at hok
  split at hok
  · split at hok
    · cases hok
      simp
    · cases hok
      constructor
      · exact emitEpisodes_ids cfg _ _ 0
      · apply emitEpisodes_pairwise
        rw [groupRuns_flatnonzero]
        have hp := maximalRuns_pairwise
          (bridgeGaps cfg.max_gap_minutes
            (activeList (sortByMinute df.rows) cfg.active_threshold)).length
          (bridgeGaps cfg.max_gap_minutes
            (activeList (sortByMinute df.rows) cfg.active_threshold))
          le_rfl 0
        have hf := maximalRuns_facts
          (bridgeGaps cfg.max_gap_minutes
            (activeList (sortByMinute df.rows) cfg.active_threshold)).length
          (bridgeGaps cfg.max_gap_minutes
            (activeList (sortByMinute df.rows) cfg.active_threshold))
          le_rfl 0
        refine hp.imp_of_mem ?_
        intro a b ha hb hr
        obtain ⟨_, ha2, _⟩ := hf a ha
        obtain ⟨_, hb2, _⟩ := hf b hb
        omega
  · cases hok

/-- C3 (witness): the corrected theorem applied to the overlapping-episode
input: identifiers are `[1, 2]` and both bounds are nondecreasing. -/
theorem c3_witness :
    ([(⟨1, 0, 2, 0, 120, 3⟩ : EpisodeRow), ⟨2, 1, 4, 60, 240, 4⟩].map
        (fun ep => ep.episode_id) =
      List.range' 1
        [(⟨1, 0, 2, 0, 120, 3⟩ : EpisodeRow), ⟨2, 1, 4, 60, 240, 4⟩].length) ∧
    ([(⟨1, 0, 2, 0, 120, 3⟩ : EpisodeRow), ⟨2, 1, 4, 60, 240, 4⟩].Pairwise
      (fun a b => a.start_idx ≤ b.start_idx ∧ a.end_idx ≤ b.end_idx)) :=
  c3_episode_ordering
    ⟨["minute_start_utc", "in_count", "out_count"],
      [⟨0, 1, 0⟩, ⟨60, 0, 0⟩, ⟨120, 0, 0⟩, ⟨180, 1, 0⟩, ⟨240, 1, 0⟩]⟩
    ⟨1, 1, 0, 1, 2⟩ [⟨1, 0, 2, 0, 120, 3⟩, ⟨2, 1, 4, 60, 240, 4⟩]
    (by norm_num [detect_queue_episodes, missingMinuteCols, sortByMinute,
      List.insertionSort, List.orderedInsert, activeList, bridgeGaps,
      flatnonzero, flatnonzeroFrom, groupRuns, groupRunsAux, emitEpisodes]
        exact ⟨rfl, rfl⟩)

/-- C2 (counterexample): the two detected episodes' buffered windows
`[0, 2]` and `[1, 4]` overlap, yet the orchestrator reconciles both
windows separately — with a solver reporting each window's length, the
output rows carry 3 on the first window's private index and 4 on the
shared indices, which a single coalesced window (length 5) could never
produce. -/
theorem c2_counterexample :
    detect_queue_episodes
        ⟨["minute_start_utc", "in_count", "out_count"],
          [⟨0, 1, 0⟩, ⟨60, 0, 0⟩, ⟨120, 0, 0⟩, ⟨180, 1, 0⟩, ⟨240, 1, 0⟩]⟩
        ⟨1, 1, 0, 1, 2⟩ =
      Except.ok [⟨1, 0, 2, 0, 120, 3⟩, ⟨2, 1, 4, 60, 240, 4⟩] ∧
    ¬ EpisodesDisjoint [⟨1, 0, 2, 0, 120, 3⟩, ⟨2, 1, 4, 60, 240, 4⟩] ∧
    reconcile_by_episodes lenSolver
        ⟨["minute_start_utc", "in_count", "out_count"],
          [⟨0, 1, 0⟩, ⟨60, 0, 0⟩, ⟨120, 0, 0⟩, ⟨180, 1, 0⟩, ⟨240, 1, 0⟩]⟩
        {} ⟨1, 1, 0, 1, 2⟩ =
      Except.ok
        [⟨0, 1, 0, 3, 0, 0, some 1, true⟩, ⟨60, 0, 0, 4, 0, 0, some 2, true⟩,
          ⟨120, 0, 0, 4, 0, 0, some 2, true⟩,
          ⟨180, 1, 0, 4, 0, 0, some 2, true⟩,
          ⟨240, 1, 0, 4, 0, 0, some 2, true⟩] := by
  refine ⟨?_, ?_, ?_⟩
  · norm_num [detect_queue_episodes, missingMinuteCols, sortByMinute,
      List.insertionSort, List.orderedInsert, activeList, bridgeGaps,
      flatnonzero, flatnonzeroFrom, groupRuns, groupRunsAux, emitEpisodes]
    exact ⟨rfl, rfl⟩
  · rw [EpisodesDisjoint]
    decide
  · norm_num [reconcile_by_episodes, detect_queue_episodes, missingMinuteCols,
      sortByMinute, List.insertionSort, List.orderedInsert, activeList,
      bridgeGaps, flatnonzero, flatnonzeroFrom, groupRuns, groupRunsAux,
      emitEpisodes, applyEpisodes, sliceRows, writeEpisode,
      reconcile_minute_flows, lenSolver, List.range_succ, List.enum]

/-- C2 (corrected): `reconcile_by_episodes` performs no coalescing of
overlapping episode windows: it reconciles each detected episode's window
independently and writes the results back sequentially in episode order,
so each output row's `episode_id` is the identifier of the **last**
detected episode whose buffered window contains the row (and `none` when
no episode does). -/
theorem c2_no_coalescing (solver : QpSolver) (df : MinuteDf)
    (rcfg : ReconcileConfig) (ecfg : EpisodeDetectConfig)
    (rows : List ReconRow) (eps : List EpisodeRow)
    (hrec : reconcile_by_episodes solver df rcfg ecfg = Except.ok rows)
    (hdet : detect_queue_episodes ⟨df.cols, sortByMinute df.rows⟩ ecfg =
      Except.ok eps) :
    rows.length = (sortByMinute df.rows).length ∧
    ∀ (k : ℕ) (d : ReconRow), k < rows.length →
      (rows.getD k d).episode_id =
        eps.foldl (fun acc ep =>
          if ep.start_idx ≤ (k : ℤ) ∧ (k : ℤ) ≤ ep.end_idx then
            some (ep.episode_id : ℤ)
          else acc) none := by
  simp only [reconcile_by_episodes] at hrec
  split at hrec
  · rw [hdet] at hrec
    dsimp only at hrec
    by_cases hemp : eps.isEmpty = true
    · rw [if_pos hemp] at hrec
      cases hrec
      have heps : eps = [] := List.isEmpty_iff.mp hemp
      subst heps
      refine ⟨List.length_map _ _, ?_⟩
      intro k d hk
      rw [List.foldl_nil]
      rw [List.length_map] at hk
      rw [List.getD_eq_getElem _ _ (by simpa using hk), List.getElem_map]
    · rw [if_neg hemp] at hrec
      obtain ⟨hlen, hchar⟩ :=
        applyEpisodes_episode_id solver rcfg (sortByMinute df.rows) eps _ rows
          hrec
      have hlen' : rows.length = (sortByMinute df.rows).length := by
        rw [hlen, List.length_map]
      refine ⟨hlen', ?_⟩
      intro k d hk
      have hk' : k < ((sortByMinute df.rows).map (fun r =>
          (⟨r.minute_start_utc, r.in_count, r.out_count, r.in_count,
            r.out_count, 0, none, false⟩ : ReconRow))).length := by
        rw [List.length_map]
        rw [hlen'] at hk
        exact hk
      rw [hchar k d hk']
      have hseed : ((((sortByMinute df.rows).map (fun r =>
          (⟨r.minute_start_utc, r.in_count, r.out_count, r.in_count,
            r.out_count, 0, none, false⟩ : ReconRow)))).getD k d).episode_id =
          none := by
        rw [List.getD_eq_getElem _ _ hk', List.getElem_map]
      rw [hseed]
  · cases hrec

/-- C2 (witness): the corrected theorem applied to the overlapping-episode
run: row 0 is claimed by episode 1 only, rows 1–4 end with episode 2's
identifier (last writer wins on the shared indices 1 and 2). -/
theorem c2_witness :
    ([(⟨0, 1, 0, 3, 0, 0, some 1, true⟩ : ReconRow),
        ⟨60, 0, 0, 4, 0, 0, some 2, true⟩, ⟨120, 0, 0, 4, 0, 0, some 2, true⟩,
        ⟨180, 1, 0, 4, 0, 0, some 2, true⟩,
        ⟨240, 1, 0, 4, 0, 0, some 2, true⟩].length =
      (sortByMinute [(⟨0, 1, 0⟩ : MinuteRow), ⟨60, 0, 0⟩, ⟨120, 0, 0⟩,
        ⟨180, 1, 0⟩, ⟨240, 1, 0⟩]).length) ∧
    (∀ (k : ℕ) (d : ReconRow),
      k < [(⟨0, 1, 0, 3, 0, 0, some 1, true⟩ : ReconRow),
        ⟨60, 0, 0, 4, 0, 0, some 2, true⟩, ⟨120, 0, 0, 4, 0, 0, some 2, true⟩,
        ⟨180, 1, 0, 4, 0, 0, some 2, true⟩,
        ⟨240, 1, 0, 4, 0, 0, some 2, true⟩].length →
      (([(⟨0, 1, 0, 3, 0, 0, some 1, true⟩ : ReconRow),
        ⟨60, 0, 0, 4, 0, 0, some 2, true⟩, ⟨120, 0, 0, 4, 0, 0, some 2, true⟩,
        ⟨180, 1, 0, 4, 0, 0, some 2, true⟩,
        ⟨240, 1, 0, 4, 0, 0, some 2, true⟩].getD k d).episode_id =
        [(⟨1, 0, 2, 0, 120, 3⟩ : EpisodeRow), ⟨2, 1, 4, 60, 240, 4⟩].foldl
          (fun acc ep =>
            if ep.start_idx ≤ (k : ℤ) ∧ (k : ℤ) ≤ ep.end_idx then
              some (ep.episode_id : ℤ)
            else acc) none)) :=
  c2_no_coalescing lenSolver
    ⟨["minute_start_utc", "in_count", "out_count"],
      [⟨0, 1, 0⟩, ⟨60, 0, 0⟩, ⟨120, 0, 0⟩, ⟨180, 1, 0⟩, ⟨240, 1, 0⟩]⟩
    {} ⟨1, 1, 0, 1, 2⟩
    [⟨0, 1, 0, 3, 0, 0, some 1, true⟩, ⟨60, 0, 0, 4, 0, 0, some 2, true⟩,
      ⟨120, 0, 0, 4, 0, 0, some 2, true⟩, ⟨180, 1, 0, 4, 0, 0, some 2, true⟩,
      ⟨240, 1, 0, 4, 0, 0, some 2, true⟩]
    [⟨1, 0, 2, 0, 120, 3⟩, ⟨2, 1, 4, 60, 240, 4⟩]
    (by norm_num [reconcile_by_episodes, detect_queue_episodes,
      missingMinuteCols, sortByMinute, List.insertionSort, List.orderedInsert,
      activeList, bridgeGaps, flatnonzero, flatnonzeroFrom, groupRuns,
      groupRunsAux, emitEpisodes, applyEpisodes, sliceRows, writeEpisode,
      reconcile_minute_flows, lenSolver, List.range_succ, List.enum])
    (by norm_num [detect_queue_episodes, missingMinuteCols, sortByMinute,
      List.insertionSort, List.orderedInsert, activeList, bridgeGaps,
      flatnonzero, flatnonzeroFrom, groupRuns, groupRunsAux, emitEpisodes]
        exact ⟨rfl, rfl⟩)


/-! Concrete FIFO evaluations used by claims C7 and C8. -/

theorem c7_cumin : cumsum [1, 1, 0, 0] = [1, 2, 2, 2] := by
  norm_num [cumsum, List.scanl]

theorem c7_cumout : cumsum [0, 0, 1, 1] = [0, 0, 1, 2] := by
  norm_num [cumsum, List.scanl]

theorem c7_adv0 : advanceCursor [1, 2, 2, 2] 1 (1/1000000) 0 = 0 := by
  rw [advanceCursor, dif_neg (by norm_num)]

theorem c7_adv1 : advanceCursor [1, 2, 2, 2] 2 (1/1000000) 1 = 1 := by
  rw [advanceCursor, dif_neg (by norm_num)]

theorem c7_adv2 : advanceCursor [1, 2, 2, 2] 2 (1/1000000) 0 = 1 := by
  rw [advanceCursor, dif_pos (by norm_num), c7_adv1]

theorem c7_tail4 : ∀ u, fifoAux 4 [1, 2, 2, 2] [0, 0, 1, 2] [0, 0, 1, 1]
    (1/1000000000) (1/1000000) u 4 = [] := by
  intro u
  rw [fifoAux, if_neg (by norm_num)]

theorem c7_tail3 : fifoAux 4 [1, 2, 2, 2] [0, 0, 1, 2] [0, 0, 1, 1]
    (1/1000000000) (1/1000000) 0 3 = [some 2] := by
  rw [fifoAux, if_pos (by norm_num), if_neg (by norm_num)]
  simp only [List.getD]
  norm_num [c7_adv2, c7_tail4]

theorem c7_concrete : fifo_wait_single_segment [1, 1, 0, 0] [0, 0, 1, 1]
    (1/1000000000) (1/1000000) = [none, none, some 2, some 2] := by
  rw [fifo_wait_single_segment]
  norm_num [c7_cumin, c7_cumout]
  rw [fifoAux, if_pos (by norm_num), if_pos (by norm_num)]
  rw [fifoAux, if_pos (by norm_num), if_pos (by norm_num)]
  rw [fifoAux, if_pos (by norm_num), if_neg (by norm_num)]
  simp only [List.getD]
  norm_num [c7_adv0, c7_tail3]

/-- C7: the single-segment FIFO reconstructor emits one wait per input
minute; each emitted wait equals the spec's cumulative-matching rule
(advance the cursor `u` while `u < m-1` and `I_u < O_k - δ`, emit
`k - u` exactly when `O_k ≤ I_u + δ`); minutes whose outflow is at most
`ε_out` are undefined; the cursor loop stops at the least admissible
index; and on `i = [1,1,0,0]`, `o = [0,0,1,1]` the waits are
`[undefined, undefined, 2, 2]`. -/
theorem c7_fifo_single_segment (inFlow outFlow : List ℚ) (eps tol : ℚ) :
    (fifo_wait_single_segment inFlow outFlow eps tol).length =
      inFlow.length ∧
    (∀ k, k < inFlow.length →
      (fifo_wait_single_segment inFlow outFlow eps tol).getD k none =
        specWait (cumsum inFlow) (cumsum outFlow) outFlow eps tol k) ∧
    (∀ k, outFlow.getD k 0 ≤ eps →
      (fifo_wait_single_segment inFlow outFlow eps tol).getD k none =
        none) ∧
    (∀ (target : ℚ) (c : ℕ),
      c ≤ advanceCursor (cumsum inFlow) target tol c ∧
      ¬(advanceCursor (cumsum inFlow) target tol c <
          (cumsum inFlow).length - 1 ∧
        (cumsum inFlow).getD (advanceCursor (cumsum inFlow) target tol c) 0 <
          target - tol) ∧
      (∀ v, c ≤ v → v < advanceCursor (cumsum inFlow) target tol c →
        v < (cumsum inFlow).length - 1 ∧
          (cumsum inFlow).getD v 0 < target - tol)) ∧
    fifo_wait_single_segment [1, 1, 0, 0] [0, 0, 1, 1]
      (1/1000000000) (1/1000000) = [none, none, some 2, some 2] := by
  refine ⟨fifo_wait_single_segment_length inFlow outFlow eps tol,
    fun k hk => fifo_wait_single_segment_getD inFlow outFlow eps tol k hk,
    ?_, fun target c => advanceCursor_char (cumsum inFlow) target tol c,
    c7_concrete⟩
  intro k hko
  by_cases hk : k < inFlow.length
  · rw [fifo_wait_single_segment_getD inFlow outFlow eps tol k hk,
      specWait, if_pos hko]
  · rw [List.getD_eq_default]
    rw [fifo_wait_single_segment_length]
    omega

/-- C7 (witness): the theorem instantiated on the worked example: minute 2
matches the spec rule, and minute 0 (zero outflow) is undefined. -/
theorem c7_witness :
    ((fifo_wait_single_segment [1, 1, 0, 0] [0, 0, 1, 1] (1/1000000000)
        (1/1000000)).getD 2 none =
      specWait (cumsum [1, 1, 0, 0]) (cumsum [0, 0, 1, 1]) [0, 0, 1, 1]
        (1/1000000000) (1/1000000) 2) ∧
    ((fifo_wait_single_segment [1, 1, 0, 0] [0, 0, 1, 1] (1/1000000000)
        (1/1000000)).getD 0 none = none) :=
  ⟨(c7_fifo_single_segment [1, 1, 0, 0] [0, 0, 1, 1] (1/1000000000)
      (1/1000000)).2.1 2 (by norm_num),
    (c7_fifo_single_segment [1, 1, 0, 0] [0, 0, 1, 1] (1/1000000000)
      (1/1000000)).2.2.1 0 (by norm_num [List.getD])⟩

/-! Concrete evaluations for C8's witness (tolerances 0, 0). -/

theorem c8_adv_a : advanceCursor [1, 1] 1 0 0 = 0 := by
  rw [advanceCursor, dif_neg (by norm_num)]

theorem c8_adv_b : advanceCursor [0, 1] 1 0 0 = 1 := by
  rw [advanceCursor, dif_pos (by norm_num)]
  rw [advanceCursor, dif_neg (by norm_num)]

theorem c8_tail_a : ∀ u, fifoAux 2 [1, 1] [0, 1] [0, 1] 0 0 u 2 = [] := by
  intro u
  rw [fifoAux, if_neg (by norm_num)]

theorem c8_aux_a1 : fifoAux 2 [1, 1] [0, 1] [0, 1] 0 0 0 1 = [some 1] := by
  rw [fifoAux, if_pos (by norm_num), if_neg (by norm_num)]
  simp only [List.getD]
  norm_num [c8_adv_a, c8_tail_a]

theorem c8_seg_a : fifo_wait_single_segment [1, 0] [0, 1] 0 0 =
    [none, some 1] := by
  rw [fifo_wait_single_segment]
  norm_num [cumsum, List.scanl]
  rw [fifoAux, if_pos (by norm_num), if_pos (by norm_num)]
  norm_num [c8_aux_a1]

theorem c8_tail_b : ∀ u, fifoAux 2 [0, 1] [1, 1] [1, 0] 0 0 u 2 = [] := by
  intro u
  rw [fifoAux, if_neg (by norm_num)]

theorem c8_aux_b1 : ∀ u, fifoAux 2 [0, 1] [1, 1] [1, 0] 0 0 u 1 = [none] := by
  intro u
  rw [fifoAux, if_pos (by norm_num), if_pos (by norm_num)]
  norm_num [c8_tail_b]

theorem c8_seg_b : fifo_wait_single_segment [0, 1] [1, 0] 0 0 =
    [some (-1), none] := by
  rw [fifo_wait_single_segment]
  norm_num [cumsum, List.scanl]
  rw [fifoAux, if_pos (by norm_num), if_neg (by norm_num)]
  simp only [List.getD]
  norm_num [c8_adv_b, c8_aux_b1]

/-- C8: per-episode isolation of the FIFO wait computation.  For two
tables carrying episode annotations that agree on episode `e`'s rows
(same mask and same row data wherever the mask holds) but may differ
arbitrarily elsewhere, `add_fifo_wait_columns` produces identical wait
values at every index of episode `e`. -/
theorem c8_episode_isolation (df1 df2 : FifoDf) (e : ℤ) (eps tol : ℚ)
    (res1 res2 : List FifoRow × List (Option ℚ))
    (h1a : "in_count_corrected" ∈ df1.cols)
    (h1b : "out_count_corrected" ∈ df1.cols)
    (h1c : "episode_id" ∈ df1.cols) (h1d : "in_episode" ∈ df1.cols)
    (h2a : "in_count_corrected" ∈ df2.cols)
    (h2b : "out_count_corrected" ∈ df2.cols)
    (h2c : "episode_id" ∈ df2.cols) (h2d : "in_episode" ∈ df2.cols)
    (hmask : ∀ j, episodeMask df1.rows e j = episodeMask df2.rows e j)
    (hdata : ∀ j, episodeMask df1.rows e j = true →
      df1.rows.getD j ⟨0, 0, none, false⟩ = df2.rows.getD j ⟨0, 0, none, false⟩)
    (hr1 : add_fifo_wait_columns df1 eps tol = Except.ok res1)
    (hr2 : add_fifo_wait_columns df2 eps tol = Except.ok res2)
    (j : ℕ) (hj : episodeMask df1.rows e j = true) :
    res1.2.getD j none = res2.2.getD j none := by
  have hj2 : episodeMask df2.rows e j = true := (hmask j) ▸ hj
  have hmem1 : e ∈ episodeIdsOf df1.rows := episodeMask_mem_ids hj
  have hmem2 : e ∈ episodeIdsOf df2.rows := episodeMask_mem_ids hj2
  have hm1 : ((["in_count_corrected", "out_count_corrected"]).filter
      (fun c => decide (c ∉ df1.cols))).isEmpty = true := by
    simp [h1a, h1b]
  have hm2 : ((["in_count_corrected", "out_count_corrected"]).filter
      (fun c => decide (c ∉ df2.cols))).isEmpty = true := by
    simp [h2a, h2b]
  have hne1 : ¬((episodeIdsOf df1.rows).isEmpty = true) := by
    intro hcon
    rw [List.isEmpty_iff.mp hcon] at hmem1
    exact absurd hmem1 (List.not_mem_nil e)
  have hne2 : ¬((episodeIdsOf df2.rows).isEmpty = true) := by
    intro hcon
    rw [List.isEmpty_iff.mp hcon] at hmem2
    exact absurd hmem2 (List.not_mem_nil e)
  simp only [add_fifo_wait_columns] at hr1 hr2
  rw [if_pos hm1, if_pos ⟨h1c, h1d⟩, if_neg hne1] at hr1
  rw [if_pos hm2, if_pos ⟨h2c, h2d⟩, if_neg hne2] at hr2
  cases hr1
  cases hr2
  rw [foldScatter_at df1.rows e eps tol j hj _ _ (List.length_map _ _),
    foldScatter_at df2.rows e eps tol j hj2 _ _ (List.length_map _ _)]
  rw [if_pos hmem1, if_pos hmem2]
  have hfalse : fifoMatch e (⟨0, 0, none, false⟩ : FifoRow) = false := rfl
  have hmaskm : ∀ i, fifoMatch e (df1.rows.getD i ⟨0, 0, none, false⟩) =
      fifoMatch e (df2.rows.getD i ⟨0, 0, none, false⟩) := by
    intro i
    have := hmask i
    rwa [episodeMask, episodeMask] at this
  have hdatam : ∀ i, fifoMatch e (df1.rows.getD i ⟨0, 0, none, false⟩) = true →
      df1.rows.getD i ⟨0, 0, none, false⟩ =
        df2.rows.getD i ⟨0, 0, none, false⟩ := by
    intro i hi
    exact hdata i hi
  have hfil : df1.rows.filter (fifoMatch e) = df2.rows.filter (fifoMatch e) :=
    filter_congr_mask (fifoMatch e) ⟨0, 0, none, false⟩ hfalse df1.rows
      df2.rows hmaskm hdatam
  have hrank : ((df1.rows.take j).filter (fifoMatch e)).length =
      ((df2.rows.take j).filter (fifoMatch e)).length :=
    filter_take_length_congr (fifoMatch e) ⟨0, 0, none, false⟩ hfalse
      df1.rows df2.rows hmaskm j
  simp only [segWaits]
  rw [hfil, hrank]

theorem c8_eval1 : add_fifo_wait_columns
    ⟨["in_count_corrected", "out_count_corrected", "episode_id",
      "in_episode"],
      [⟨1, 0, some 1, true⟩, ⟨0, 1, some 1, true⟩, ⟨1, 0, some 2, true⟩,
        ⟨0, 1, some 2, true⟩]⟩ 0 0 =
    Except.ok
      ([⟨1, 0, some 1, true⟩, ⟨0, 1, some 1, true⟩, ⟨1, 0, some 2, true⟩,
        ⟨0, 1, some 2, true⟩],
        [none, some 1, none, some 1]) := by
  norm_num [add_fifo_wait_columns, episodeIdsOf, uniqueKeepOrder, segWaits,
    fifoMatch, scatterWaits, c8_seg_a, c8_seg_b, List.filterMap_cons,
    List.filterMap_nil, List.filter_cons, List.filter_nil, List.foldl_cons,
    List.foldl_nil]

theorem c8_eval2 : add_fifo_wait_columns
    ⟨["in_count_corrected", "out_count_corrected", "episode_id",
      "in_episode"],
      [⟨1, 0, some 1, true⟩, ⟨0, 1, some 1, true⟩, ⟨0, 1, some 2, true⟩,
        ⟨1, 0, some 2, true⟩]⟩ 0 0 =
    Except.ok
      ([⟨1, 0, some 1, true⟩, ⟨0, 1, some 1, true⟩, ⟨0, 1, some 2, true⟩,
        ⟨1, 0, some 2, true⟩],
        [none, some 1, some (-1), none]) := by
  norm_num [add_fifo_wait_columns, episodeIdsOf, uniqueKeepOrder, segWaits,
    fifoMatch, scatterWaits, c8_seg_a, c8_seg_b, List.filterMap_cons,
    List.filterMap_nil, List.filter_cons, List.filter_nil, List.foldl_cons,
    List.foldl_nil]

theorem c8_maskbound1 (j : ℕ) :
    ([⟨1, 0, some 1, true⟩, ⟨0, 1, some 1, true⟩, ⟨1, 0, some 2, true⟩,
      ⟨0, 1, some 2, true⟩] : List FifoRow).getD (j + 1 + 1 + 1 + 1)
      ⟨0, 0, none, false⟩ = ⟨0, 0, none, false⟩ := by
  apply List.getD_eq_default
  simp only [List.length_cons, List.length_nil]
  omega

theorem c8_maskbound2 (j : ℕ) :
    ([⟨1, 0, some 1, true⟩, ⟨0, 1, some 1, true⟩, ⟨0, 1, some 2, true⟩,
      ⟨1, 0, some 2, true⟩] : List FifoRow).getD (j + 1 + 1 + 1 + 1)
      ⟨0, 0, none, false⟩ = ⟨0, 0, none, false⟩ := by
  apply List.getD_eq_default
  simp only [List.length_cons, List.length_nil]
  omega

/-- C8 (witness): two 2-episode tables agreeing on episode 1 but with
episode 2's flows permuted produce different waits on episode 2's rows
(`some (-1)` versus `some 1`) yet the identical wait `some 1` at episode
1's index 1, as the theorem requires. -/
theorem c8_witness :
    ([none, some 1, none, some (1 : ℚ)] : List (Option ℚ)).getD 1 none =
      ([none, some 1, some (-1), none] : List (Option ℚ)).getD 1 none :=
  c8_episode_isolation
    ⟨["in_count_corrected", "out_count_corrected", "episode_id",
      "in_episode"],
      [⟨1, 0, some 1, true⟩, ⟨0, 1, some 1, true⟩, ⟨1, 0, some 2, true⟩,
        ⟨0, 1, some 2, true⟩]⟩
    ⟨["in_count_corrected", "out_count_corrected", "episode_id",
      "in_episode"],
      [⟨1, 0, some 1, true⟩, ⟨0, 1, some 1, true⟩, ⟨0, 1, some 2, true⟩,
        ⟨1, 0, some 2, true⟩]⟩
    1 0 0
    ([⟨1, 0, some 1, true⟩, ⟨0, 1, some 1, true⟩, ⟨1, 0, some 2, true⟩,
        ⟨0, 1, some 2, true⟩],
      [none, some 1, none, some 1])
    ([⟨1, 0, some 1, true⟩, ⟨0, 1, some 1, true⟩, ⟨0, 1, some 2, true⟩,
        ⟨1, 0, some 2, true⟩],
      [none, some 1, some (-1), none])
    (by decide) (by decide) (by decide) (by decide)
    (by decide) (by decide) (by decide) (by decide)
    (by
      intro j
      rcases j with _ | _ | _ | _ | j
      · decide
      · decide
      · decide
      · decide
      · rw [episodeMask, episodeMask, c8_maskbound1, c8_maskbound2])
    (by
      intro j hj
      rcases j with _ | _ | _ | _ | j
      · rfl
      · rfl
      · exact absurd hj (by decide)
      · exact absurd hj (by decide)
      · rw [episodeMask, c8_maskbound1] at hj
        exact absurd hj (by decide))
    c8_eval1 c8_eval2 1 (by decide)


/-- C9: the minute-grid builder.  For any ok result on non-empty parsed
input: the schema is fixed; the grid spans the floored minimum to the
floored maximum timestamp (the floor of a min/max is the min/max of the
floors); it is dense at one bucket per minute with consecutive buckets 60
seconds apart; each bucket counts the in- and out-timestamps flooring to
it; the result is invariant under permuting either input and under
deleting the unparseable (`none`) entries; and two empty inputs give the
empty grid. -/
theorem c9_minute_grid_builder (ins outs : List (Option ℤ)) (df : MinuteDf)
    (hok : build_minute_flows (mkTsDf ins) (mkTsDf outs) {} = Except.ok df)
    (hne : ¬((ins.filterMap id).isEmpty = true ∧
      (outs.filterMap id).isEmpty = true)) :
    df.cols = ["minute_start_utc", "in_count", "out_count"] ∧
    listMin ((ins.filterMap id ++ outs.filterMap id).map floorMinute) =
      floorMinute (listMin (ins.filterMap id ++ outs.filterMap id)) ∧
    listMax ((ins.filterMap id ++ outs.filterMap id).map floorMinute) =
      floorMinute (listMax (ins.filterMap id ++ outs.filterMap id)) ∧
    df.rows.length =
      (listMax ((ins.filterMap id ++ outs.filterMap id).map floorMinute) -
        listMin ((ins.filterMap id ++ outs.filterMap id).map floorMinute) +
        1).toNat ∧
    (∀ j : ℕ, j < df.rows.length →
      (df.rows.getD j ⟨0, 0, 0⟩).minute_start_utc =
        60 * (listMin ((ins.filterMap id ++ outs.filterMap id).map
          floorMinute) + (j : ℤ)) ∧
      (df.rows.getD j ⟨0, 0, 0⟩).in_count =
        ((((ins.filterMap id).map floorMinute).count
          (listMin ((ins.filterMap id ++ outs.filterMap id).map floorMinute) +
            (j : ℤ)) : ℕ) : ℚ) ∧
      (df.rows.getD j ⟨0, 0, 0⟩).out_count =
        ((((outs.filterMap id).map floorMinute).count
          (listMin ((ins.filterMap id ++ outs.filterMap id).map floorMinute) +
            (j : ℤ)) : ℕ) : ℚ)) ∧
    (∀ j : ℕ, j + 1 < df.rows.length →
      (df.rows.getD (j + 1) ⟨0, 0, 0⟩).minute_start_utc =
        (df.rows.getD j ⟨0, 0, 0⟩).minute_start_utc + 60) ∧
    (∀ (ins2 outs2 : List (Option ℤ)), ins.Perm ins2 → outs.Perm outs2 →
      build_minute_flows (mkTsDf ins) (mkTsDf outs) {} =
        build_minute_flows (mkTsDf ins2) (mkTsDf outs2) {}) ∧
    build_minute_flows (mkTsDf ((ins.filterMap id).map some))
        (mkTsDf ((outs.filterMap id).map some)) {} =
      build_minute_flows (mkTsDf ins) (mkTsDf outs) {} ∧
    build_minute_flows (mkTsDf []) (mkTsDf []) {} =
      Except.ok ⟨["minute_start_utc", "in_count", "out_count"], []⟩ := by
  have hparsedne : ins.filterMap id ++ outs.filterMap id ≠ [] := by
    intro hcon
    rcases List.append_eq_nil.mp hcon with ⟨ha, hb⟩
    exact hne ⟨by rw [ha]; rfl, by rw [hb]; rfl⟩
  have hfloorne : (ins.filterMap id ++ outs.filterMap id).map floorMinute ≠
      [] := by
    intro hcon
    exact hparsedne (List.map_eq_nil_iff.mp hcon)
  rw [build_eq, if_neg hne] at hok
  cases hok
  have hlen : ((intRange
      (listMin ((ins.filterMap id ++ outs.filterMap id).map floorMinute))
      (listMax ((ins.filterMap id ++ outs.filterMap id).map
        floorMinute))).map (fun m =>
          (⟨60 * m, ((((ins.filterMap id).map floorMinute).count m : ℕ) : ℚ),
            ((((outs.filterMap id).map floorMinute).count m : ℕ) : ℚ)⟩ :
            MinuteRow))).length =
      (listMax ((ins.filterMap id ++ outs.filterMap id).map floorMinute) -
        listMin ((ins.filterMap id ++ outs.filterMap id).map floorMinute) +
        1).toNat := by
    rw [List.length_map, intRange_length]
  have hpoint : ∀ j : ℕ,
      j < (listMax ((ins.filterMap id ++ outs.filterMap id).map floorMinute) -
        listMin ((ins.filterMap id ++ outs.filterMap id).map floorMinute) +
        1).toNat →
      ((intRange
        (listMin ((ins.filterMap id ++ outs.filterMap id).map floorMinute))
        (listMax ((ins.filterMap id ++ outs.filterMap id).map
          floorMinute))).map (fun m =>
            (⟨60 * m, ((((ins.filterMap id).map floorMinute).count m : ℕ) : ℚ),
              ((((outs.filterMap id).map floorMinute).count m : ℕ) : ℚ)⟩ :
              MinuteRow))).getD j ⟨0, 0, 0⟩ =
        ⟨60 * (listMin ((ins.filterMap id ++ outs.filterMap id).map
            floorMinute) + (j : ℤ)),
          ((((ins.filterMap id).map floorMinute).count
            (listMin ((ins.filterMap id ++ outs.filterMap id).map
              floorMinute) + (j : ℤ)) : ℕ) : ℚ),
          ((((outs.filterMap id).map floorMinute).count
            (listMin ((ins.filterMap id ++ outs.filterMap id).map
              floorMinute) + (j : ℤ)) : ℕ) : ℚ)⟩ := by
    intro j hj
    have hj2 : j < (intRange
        (listMin ((ins.filterMap id ++ outs.filterMap id).map floorMinute))
        (listMax ((ins.filterMap id ++ outs.filterMap id).map
          floorMinute))).length := by
      rwa [intRange_length]
    have hj3 : j < ((intRange
        (listMin ((ins.filterMap id ++ outs.filterMap id).map floorMinute))
        (listMax ((ins.filterMap id ++ outs.filterMap id).map
          floorMinute))).map (fun m =>
            (⟨60 * m, ((((ins.filterMap id).map floorMinute).count m : ℕ) : ℚ),
              ((((outs.filterMap id).map floorMinute).count m : ℕ) : ℚ)⟩ :
              MinuteRow))).length := by
      rwa [List.length_map]
    rw [List.getD_eq_getElem _ _ hj3, List.getElem_map,
      ← List.getD_eq_getElem _ 0 hj2, intRange_getD _ _ _ hj]
  refine ⟨rfl, listMin_map_floor hparsedne, listMax_map_floor hparsedne,
    hlen, ?_, ?_,
    fun ins2 outs2 hp1 hp2 => build_perm hp1 hp2,
    build_congr (by simp) (by simp), ?_⟩
  · intro j hj
    rw [hlen] at hj
    rw [hpoint j hj]
    exact ⟨rfl, rfl, rfl⟩
  · intro j hj
    rw [hlen] at hj
    rw [hpoint j (by omega), hpoint (j + 1) hj]
    push_cast
    ring
  · rw [build_eq]
    exact if_pos ⟨rfl, rfl⟩

theorem c9_floor65 : floorMinute 65 = 1 := by decide

theorem c9_floor0 : floorMinute 0 = 0 := by decide

theorem c9_floor130 : floorMinute 130 = 2 := by decide

/-- C9 (witness): the theorem instantiated on in-timestamps
`[65, NaT, 0]` and out-timestamps `[130]`: a three-bucket grid
`0, 60, 120` with in-counts `1, 1, 0` and out-counts `0, 0, 1`. -/
theorem c9_witness :
    ((⟨["minute_start_utc", "in_count", "out_count"],
        [⟨0, 1, 0⟩, ⟨60, 1, 0⟩, ⟨120, 0, 1⟩]⟩ : MinuteDf).cols =
      ["minute_start_utc", "in_count", "out_count"] ∧
    listMin ((([some 65, none, some 0] : List (Option ℤ)).filterMap id ++
        ([some 130] : List (Option ℤ)).filterMap id).map floorMinute) =
      floorMinute (listMin (([some 65, none, some 0] :
        List (Option ℤ)).filterMap id ++
        ([some 130] : List (Option ℤ)).filterMap id)) ∧
    listMax ((([some 65, none, some 0] : List (Option ℤ)).filterMap id ++
        ([some 130] : List (Option ℤ)).filterMap id).map floorMinute) =
      floorMinute (listMax (([some 65, none, some 0] :
        List (Option ℤ)).filterMap id ++
        ([some 130] : List (Option ℤ)).filterMap id)) ∧
    (⟨["minute_start_utc", "in_count", "out_count"],
        [⟨0, 1, 0⟩, ⟨60, 1, 0⟩, ⟨120, 0, 1⟩]⟩ : MinuteDf).rows.length =
      (listMax ((([some 65, none, some 0] : List (Option ℤ)).filterMap id ++
          ([some 130] : List (Option ℤ)).filterMap id).map floorMinute) -
        listMin ((([some 65, none, some 0] : List (Option ℤ)).filterMap id ++
          ([some 130] : List (Option ℤ)).filterMap id).map floorMinute) +
        1).toNat ∧
    (∀ j : ℕ, j < (⟨["minute_start_utc", "in_count", "out_count"],
        [⟨0, 1, 0⟩, ⟨60, 1, 0⟩, ⟨120, 0, 1⟩]⟩ : MinuteDf).rows.length →
      ((⟨["minute_start_utc", "in_count", "out_count"],
        [⟨0, 1, 0⟩, ⟨60, 1, 0⟩, ⟨120, 0, 1⟩]⟩ : MinuteDf).rows.getD j
          ⟨0, 0, 0⟩).minute_start_utc =
        60 * (listMin ((([some 65, none, some 0] :
          List (Option ℤ)).filterMap id ++
          ([some 130] : List (Option ℤ)).filterMap id).map floorMinute) +
          (j : ℤ)) ∧
      ((⟨["minute_start_utc", "in_count", "out_count"],
        [⟨0, 1, 0⟩, ⟨60, 1, 0⟩, ⟨120, 0, 1⟩]⟩ : MinuteDf).rows.getD j
          ⟨0, 0, 0⟩).in_count =
        (((((([some 65, none, some 0] : List (Option ℤ)).filterMap id)).map
          floorMinute).count
          (listMin ((([some 65, none, some 0] :
            List (Option ℤ)).filterMap id ++
            ([some 130] : List (Option ℤ)).filterMap id).map floorMinute) +
            (j : ℤ)) : ℕ) : ℚ) ∧
      ((⟨["minute_start_utc", "in_count", "out_count"],
        [⟨0, 1, 0⟩, ⟨60, 1, 0⟩, ⟨120, 0, 1⟩]⟩ : MinuteDf).rows.getD j
          ⟨0, 0, 0⟩).out_count =
        (((((([some 130] : List (Option ℤ)).filterMap id)).map
          floorMinute).count
          (listMin ((([some 65, none, some 0] :
            List (Option ℤ)).filterMap id ++
            ([some 130] : List (Option ℤ)).filterMap id).map floorMinute) +
            (j : ℤ)) : ℕ) : ℚ)) ∧
    (∀ j : ℕ, j + 1 < (⟨["minute_start_utc", "in_count", "out_count"],
        [⟨0, 1, 0⟩, ⟨60, 1, 0⟩, ⟨120, 0, 1⟩]⟩ : MinuteDf).rows.length →
      ((⟨["minute_start_utc", "in_count", "out_count"],
        [⟨0, 1, 0⟩, ⟨60, 1, 0⟩, ⟨120, 0, 1⟩]⟩ : MinuteDf).rows.getD (j + 1)
          ⟨0, 0, 0⟩).minute_start_utc =
        ((⟨["minute_start_utc", "in_count", "out_count"],
          [⟨0, 1, 0⟩, ⟨60, 1, 0⟩, ⟨120, 0, 1⟩]⟩ : MinuteDf).rows.getD j
            ⟨0, 0, 0⟩).minute_start_utc + 60) ∧
    (∀ (ins2 outs2 : List (Option ℤ)),
      ([some 65, none, some 0] : List (Option ℤ)).Perm ins2 →
      ([some 130] : List (Option ℤ)).Perm outs2 →
      build_minute_flows (mkTsDf [some 65, none, some 0])
          (mkTsDf [some 130]) {} =
        build_minute_flows (mkTsDf ins2) (mkTsDf outs2) {}) ∧
    build_minute_flows
        (mkTsDf ((([some 65, none, some 0] :
          List (Option ℤ)).filterMap id).map some))
        (mkTsDf ((([some 130] : List (Option ℤ)).filterMap id).map some))
        {} =
      build_minute_flows (mkTsDf [some 65, none, some 0])
        (mkTsDf [some 130]) {} ∧
    build_minute_flows (mkTsDf []) (mkTsDf []) {} =
      Except.ok ⟨["minute_start_utc", "in_count", "out_count"], []⟩) :=
  c9_minute_grid_builder [some 65, none, some 0] [some 130]
    ⟨["minute_start_utc", "in_count", "out_count"],
      [⟨0, 1, 0⟩, ⟨60, 1, 0⟩, ⟨120, 0, 1⟩]⟩
    (by
      rw [build_eq, if_neg (by decide)]
      norm_num [listMin, listMax, intRange, List.range_succ, c9_floor65,
        c9_floor0, c9_floor130, List.count_cons, List.count_nil,
        List.foldl_cons, List.foldl_nil, List.filterMap_cons,
        List.filterMap_nil, Function.comp, show Int.toNat 3 = 3 from rfl])
    (by decide)

theorem c1_floor5 : floorMinute 5 = 0 := by decide

theorem c1_floor125 : floorMinute 125 = 2 := by decide

theorem c1_floor65 : floorMinute 65 = 1 := by decide

/-- C1: under default options the public entrypoint returns, for a
non-empty input, a table whose columns are exactly `Pax i kö`,
`Pax in i kö`, `Pax ur kö` — there is no `Väntetid` column, and
`EstimateQueueOptions` (the complete translation of the source dataclass)
has no `include_fifo_wait` field that could add one. -/
theorem c1_no_fifo_wait_column :
    estimate_queue_from_timestamps (constSolver "optimal" 0 0 0)
        (mkTsDf [some 5, some 125]) (mkTsDf [some 65]) {} =
      Except.ok ⟨"Tid", ["Pax i kö", "Pax in i kö", "Pax ur kö"],
        [0, 60, 120], [0, 0, 0], [1, 0, 1], [0, 1, 0]⟩ ∧
    "Väntetid" ∉ ["Pax i kö", "Pax in i kö", "Pax ur kö"] := by
  constructor
  · rw [estimate_queue_from_timestamps]
    rw [show build_minute_flows (mkTsDf [some 5, some 125]) (mkTsDf [some 65])
          {} =
        Except.ok ⟨["minute_start_utc", "in_count", "out_count"],
          [⟨0, 1, 0⟩, ⟨60, 0, 1⟩, ⟨120, 1, 0⟩]⟩ by
      rw [build_eq, if_neg (by decide)]
      norm_num [listMin, listMax, intRange, List.range_succ, c1_floor5,
        c1_floor125, c1_floor65, List.count_cons, List.count_nil,
        List.foldl_cons, List.foldl_nil, List.filterMap_cons,
        List.filterMap_nil, Function.comp, show Int.toNat 3 = 3 from rfl]]
    norm_num [reconcile_by_episodes, detect_queue_episodes, missingMinuteCols,
      sortByMinute, List.insertionSort, List.orderedInsert, activeList,
      bridgeGaps, flatnonzero, flatnonzeroFrom, groupRuns, groupRunsAux,
      emitEpisodes, format_queue_output]
  · decide

end KffV2
